import Mathlib

/-!
Verification of the response-normalization and dispatch pipeline of the
WhatsApp commerce bot.  Python values flowing through the pipeline are
modelled by the JSON-like type `JVal` (numbers are modelled as integers);
strings are modelled as lists of characters.  Each definition is a direct
translation of the corresponding Python function from the repository
(`openai_agent.py`, `main.py`, `tools.py`, `handoff_tools.py`,
`product_loader.py`, `zoko_utils.py`).
-/

namespace Automation

/-- JSON-like values: the data model shared by `orjson.loads`/`dumps` and the
Python dicts that flow through the pipeline.  Objects keep key insertion
order, as Python dicts do. -/
inductive JVal : Type where
  | null : JVal
  | bool : Bool → JVal
  | num : Int → JVal
  | str : List Char → JVal
  | arr : List JVal → JVal
  | obj : List (List Char × JVal) → JVal

instance : Inhabited JVal := ⟨.null⟩

mutual

/-- Boolean structural equality on `JVal`, the model of Python `==` on the
corresponding values (numbers, strings, lists, dicts compared by value;
dict comparison here is order-sensitive, which agrees with Python whenever
both sides were built with the same key order, as everywhere below). -/
def beqJ : JVal → JVal → Bool
  | .null, .null => true
  | .bool a, .bool b => a = b
  | .num a, .num b => a = b
  | .str a, .str b => a = b
  | .arr a, .arr b => beqElems a b
  | .obj a, .obj b => beqFields a b
  | _, _ => false

/-- Pointwise equality of value lists. -/
def beqElems : List JVal → List JVal → Bool
  | [], [] => true
  | x :: xs, y :: ys => beqJ x y && beqElems xs ys
  | _, _ => false

/-- Pointwise equality of field lists. -/
def beqFields : List (List Char × JVal) → List (List Char × JVal) → Bool
  | [], [] => true
  | (k, v) :: xs, (k', v') :: ys => k = k' && beqJ v v' && beqFields xs ys
  | _, _ => false

end

mutual

/-- True when the value contains no number anywhere (the canonical messages
of the pipeline are built from strings, arrays and objects only). -/
def noNum : JVal → Bool
  | .null => true
  | .bool _ => true
  | .num _ => false
  | .str _ => true
  | .arr xs => noNumElems xs
  | .obj kvs => noNumFields kvs

/-- `noNum` over array elements. -/
def noNumElems : List JVal → Bool
  | [] => true
  | x :: xs => noNum x && noNumElems xs

/-- `noNum` over object fields. -/
def noNumFields : List (List Char × JVal) → Bool
  | [] => true
  | (_, v) :: kvs => noNum v && noNumFields kvs

end

namespace JVal

/-- Lookup of a key in an object field list (first occurrence), the model of
`dict.__getitem__` / `dict.get` for our object representation. -/
def lookup (k : List Char) : List (List Char × JVal) → Option JVal
  | [] => none
  | (k', v) :: rest => if k' = k then some v else lookup k rest

/-- `d.get(key)` on an object; `none` when the value is not an object or the
key is absent. -/
def get (v : JVal) (k : List Char) : Option JVal :=
  match v with
  | .obj fields => lookup k fields
  | _ => none

/-- Model of Python `key in dict` for objects. -/
def hasKey (v : JVal) (k : List Char) : Bool :=
  (v.get k).isSome

end JVal

/-! ## Serialization: model of `orjson.dumps` (compact output, no spaces). -/

/-- Hex digit character for a value below 16 (lowercase letters). -/
def hexDig (n : Nat) : Char :=
  if n < 10 then Char.ofNat (48 + n) else Char.ofNat (87 + n)

/-- Escape of a single character inside a JSON string literal. -/
def escChar (c : Char) : List Char :=
  if c = '"' then ['\\', '"']
  else if c = '\\' then ['\\', '\\']
  else if c = '\n' then ['\\', 'n']
  else if c = '\t' then ['\\', 't']
  else if c = '\r' then ['\\', 'r']
  else if c.toNat < 32 then ['\\', 'u', '0', '0', hexDig (c.toNat / 16), hexDig (c.toNat % 16)]
  else [c]

/-- Escaped body of a JSON string literal. -/
def escBody : List Char → List Char
  | [] => []
  | c :: cs => escChar c ++ escBody cs

/-- Serialized form of a JSON string literal, quotes included. -/
def serStr (s : List Char) : List Char :=
  '"' :: escBody s ++ ['"']

/-- Decimal digits of an integer. -/
def intChars (n : Int) : List Char :=
  if n < 0 then '-' :: Nat.toDigits 10 n.natAbs else Nat.toDigits 10 n.toNat

mutual

/-- Model of `orjson.dumps`: compact serialization with no whitespace. -/
def serialize : JVal → List Char
  | .null => "null".data
  | .bool true => "true".data
  | .bool false => "false".data
  | .num n => intChars n
  | .str s => serStr s
  | .arr xs => '[' :: serElems xs ++ [']']
  | .obj kvs => '{' :: serFields kvs ++ ['}']

/-- Comma-separated serialization of array elements. -/
def serElems : List JVal → List Char
  | [] => []
  | [x] => serialize x
  | x :: y :: xs => serialize x ++ ',' :: serElems (y :: xs)

/-- Comma-separated serialization of object fields. -/
def serFields : List (List Char × JVal) → List Char
  | [] => []
  | [(k, v)] => serStr k ++ ':' :: serialize v
  | (k, v) :: kv :: kvs => serStr k ++ ':' :: serialize v ++ ',' :: serFields (kv :: kvs)

end

/-! ## Parsing: model of `orjson.loads` (strict JSON, fuelled recursion). -/

/-- JSON insignificant whitespace characters. -/
def isWsChar (c : Char) : Bool :=
  c = ' ' || c = '\t' || c = '\n' || c = '\r'

/-- Drop leading JSON whitespace. -/
def skipWs : List Char → List Char
  | [] => []
  | c :: cs => if isWsChar c then skipWs cs else c :: cs

/-- Numeric value of a hex digit character. -/
def hexVal (c : Char) : Option Nat :=
  if '0' ≤ c ∧ c ≤ '9' then some (c.toNat - 48)
  else if 'a' ≤ c ∧ c ≤ 'f' then some (c.toNat - 87)
  else if 'A' ≤ c ∧ c ≤ 'F' then some (c.toNat - 55)
  else none

/-- Numeric value of a decimal digit character. -/
def digVal (c : Char) : Option Nat :=
  if '0' ≤ c ∧ c ≤ '9' then some (c.toNat - 48) else none

/-- Decoded character of a single-character JSON escape sequence. -/
def escDecode (e : Char) : Option Char :=
  if e = '"' then some '"'
  else if e = '\\' then some '\\'
  else if e = '/' then some '/'
  else if e = 'n' then some '\n'
  else if e = 't' then some '\t'
  else if e = 'r' then some '\r'
  else if e = 'b' then some '\x08'
  else if e = 'f' then some '\x0c'
  else none

/-- Combined value of four hex digit characters, when all four are valid. -/
def hexQuad (h1 h2 h3 h4 : Char) : Option Nat :=
  match hexVal h1, hexVal h2, hexVal h3, hexVal h4 with
  | some a, some b, some c, some d => some (((a * 16 + b) * 16 + c) * 16 + d)
  | _, _, _, _ => none

/-- Body of a JSON string literal after the opening quote: returns the decoded
characters and the input remaining after the closing quote. -/
def parseStrBody : List Char → Option (List Char × List Char)
  | [] => none
  | c :: rest =>
    if c = '"' then some ([], rest)
    else if c = '\\' then
      match rest with
      | [] => none
      | e :: rest' =>
        if e = 'u' then
          match rest' with
          | h1 :: h2 :: h3 :: h4 :: rest'' =>
            match hexQuad h1 h2 h3 h4 with
            | some n =>
              if n.isValidChar then
                (parseStrBody rest'').map (fun p => (Char.ofNat n :: p.1, p.2))
              else none
            | none => none
          | _ => none
        else
          match escDecode e with
          | some d => (parseStrBody rest').map (fun p => (d :: p.1, p.2))
          | none => none
    else (parseStrBody rest).map (fun p => (c :: p.1, p.2))

/-- Consume a run of decimal digits, accumulating their value. -/
def parseDigits (acc : Nat) : List Char → Nat × List Char
  | [] => (acc, [])
  | c :: rest =>
    match digVal c with
    | some d => parseDigits (acc * 10 + d) rest
    | none => (acc, c :: rest)

/-- Parse an integer literal (optional minus sign, at least one digit).
Fractional and exponent parts are not modelled: the values flowing through
this pipeline never carry non-integer numbers. -/
def parseNum : List Char → Option (JVal × List Char)
  | [] => none
  | c :: rest =>
    if c = '-' then
      match rest with
      | [] => none
      | c2 :: rest2 =>
        match digVal c2 with
        | some d =>
          let p := parseDigits d rest2
          some (.num (-(p.1 : Int)), p.2)
        | none => none
    else
      match digVal c with
      | some d =>
        let p := parseDigits d rest
        some (.num (p.1 : Int), p.2)
      | none => none

mutual

/-- Parse a single JSON value (fuelled); returns the value and the remaining
input.  Leading whitespace is skipped. -/
def parseVal : Nat → List Char → Option (JVal × List Char)
  | 0, _ => none
  | fuel + 1, l =>
    match skipWs l with
    | 'n' :: 'u' :: 'l' :: 'l' :: rest => some (.null, rest)
    | 't' :: 'r' :: 'u' :: 'e' :: rest => some (.bool true, rest)
    | 'f' :: 'a' :: 'l' :: 's' :: 'e' :: rest => some (.bool false, rest)
    | '"' :: rest => (parseStrBody rest).map (fun p => (.str p.1, p.2))
    | '[' :: rest =>
      match skipWs rest with
      | ']' :: rest' => some (.arr [], rest')
      | l' => (parseElems fuel l').map (fun p => (.arr p.1, p.2))
    | '{' :: rest =>
      match skipWs rest with
      | '}' :: rest' => some (.obj [], rest')
      | l' => (parseFields fuel l').map (fun p => (.obj p.1, p.2))
    | l' => parseNum l'

/-- Parse one or more comma-separated array elements up to the closing
bracket. -/
def parseElems : Nat → List Char → Option (List JVal × List Char)
  | 0, _ => none
  | fuel + 1, l =>
    match parseVal fuel l with
    | none => none
    | some (v, rest) =>
      match skipWs rest with
      | ',' :: rest' => (parseElems fuel rest').map (fun p => (v :: p.1, p.2))
      | ']' :: rest' => some ([v], rest')
      | _ => none

/-- Parse one or more comma-separated object fields up to the closing
brace. -/
def parseFields : Nat → List Char → Option (List (List Char × JVal) × List Char)
  | 0, _ => none
  | fuel + 1, l =>
    match skipWs l with
    | '"' :: restk =>
      match parseStrBody restk with
      | none => none
      | some (k, restv) =>
        match skipWs restv with
        | ':' :: restv' =>
          match parseVal fuel restv' with
          | none => none
          | some (v, rest) =>
            match skipWs rest with
            | ',' :: rest' => (parseFields fuel rest').map (fun p => ((k, v) :: p.1, p.2))
            | '}' :: rest' => some ([(k, v)], rest')
            | _ => none
        | _ => none
    | _ => none

end

/-- Model of `orjson.loads`: parse a complete JSON document; trailing
whitespace only is allowed after the value. -/
def jparse (l : List Char) : Option JVal :=
  match parseVal (l.length + 1) l with
  | some (v, rest) => if skipWs rest = [] then some v else none
  | none => none

/-! ### Consumption lemmas: every successful parse consumes input, and a
parsed string literal is strictly shorter than the text it came from.  These
drive the termination bound of the `fully_parse_json` unwrap loop. -/

theorem skipWs_length_le (l : List Char) : (skipWs l).length ≤ l.length := by
  induction l with
  | nil => simp [skipWs]
  | cons c cs ih =>
    by_cases h : isWsChar c <;> simp [skipWs, h] <;> omega

theorem parseStrBody_length_aux :
    ∀ (n : Nat) (l t rest : List Char), l.length ≤ n →
      parseStrBody l = some (t, rest) → t.length + 1 + rest.length ≤ l.length := by
  intro n
  induction n with
  | zero =>
    intro l t rest hl h
    cases l with
    | nil => simp [parseStrBody] at h
    | cons c l' => exact (Nat.not_succ_le_zero _ hl).elim
  | succ n ih =>
    intro l t rest hl h
    cases l with
    | nil => simp [parseStrBody] at h
    | cons c l' =>
      rw [parseStrBody.eq_def] at h
      simp only [] at h
      by_cases hq : c = '"'
      · simp only [hq, if_pos rfl] at h
        cases h
        simp only [List.length_cons, List.length_nil]
        omega
      · simp only [if_neg hq] at h
        by_cases hb : c = '\\'
        · simp only [hb, if_pos rfl] at h
          cases l' with
          | nil => simp at h
          | cons e l'' =>
            by_cases hu : e = 'u'
            · simp only [hu, if_pos rfl] at h
              rcases l'' with _ | ⟨h1, _ | ⟨h2, _ | ⟨h3, _ | ⟨h4, l3⟩⟩⟩⟩
              · simp at h
              · simp at h
              · simp at h
              · simp at h
              ·
                cases hx : hexQuad h1 h2 h3 h4 with
                | none => simp [hx] at h
                | some m =>
                  simp only [hx] at h
                  by_cases hv : m.isValidChar
                  · simp only [hv, if_pos rfl] at h
                    cases hrec : parseStrBody l3 with
                    | none => simp [hrec] at h
                    | some p =>
                      obtain ⟨t', r'⟩ := p
                      simp only [hrec, Option.map_some'] at h
                      have hpair := Option.some.inj h
                      have ht : Char.ofNat m :: t' = t := congrArg Prod.fst hpair
                      have hr : r' = rest := congrArg Prod.snd hpair
                      have hih := ih l3 t' r' (by simp at hl ⊢; omega) hrec
                      rw [← ht, ← hr]
                      simp only [List.length_cons]
                      omega
                  · simp [hv] at h
            · simp only [if_neg hu] at h
              cases hd : escDecode e with
              | none => simp [hd] at h
              | some d =>
                simp only [hd] at h
                cases hrec : parseStrBody l'' with
                | none => simp [hrec] at h
                | some p =>
                  obtain ⟨t', r'⟩ := p
                  simp only [hrec, Option.map_some'] at h
                  have hpair := Option.some.inj h
                  have ht : d :: t' = t := congrArg Prod.fst hpair
                  have hr : r' = rest := congrArg Prod.snd hpair
                  have hih := ih l'' t' r' (by simp at hl ⊢; omega) hrec
                  rw [← ht, ← hr]
                  simp only [List.length_cons]
                  omega
        · simp only [if_neg hb] at h
          cases hrec : parseStrBody l' with
          | none => simp [hrec] at h
          | some p =>
            obtain ⟨t', r'⟩ := p
            simp only [hrec, Option.map_some'] at h
            have hpair := Option.some.inj h
            have ht : c :: t' = t := congrArg Prod.fst hpair
            have hr : r' = rest := congrArg Prod.snd hpair
            have hih := ih l' t' r' (by simp at hl; omega) hrec
            rw [← ht, ← hr]
            simp only [List.length_cons]
            omega

theorem parseStrBody_length {l t rest : List Char}
    (h : parseStrBody l = some (t, rest)) :
    t.length + 1 + rest.length ≤ l.length :=
  parseStrBody_length_aux l.length l t rest le_rfl h

theorem parseDigits_length (acc : Nat) (l : List Char) :
    (parseDigits acc l).2.length ≤ l.length := by
  induction l generalizing acc with
  | nil => simp [parseDigits]
  | cons c cs ih =>
    simp only [parseDigits]
    cases digVal c with
    | none => simp
    | some d => simpa using Nat.le_succ_of_le (ih _)

theorem parseNum_length {l : List Char} {v : JVal} {rest : List Char}
    (h : parseNum l = some (v, rest)) : rest.length < l.length := by
  match l with
  | [] => simp [parseNum] at h
  | c :: l' =>
    simp only [parseNum] at h
    by_cases hc : c = '-'
    · simp only [hc, if_pos rfl] at h
      match l' with
      | [] => simp at h
      | c2 :: l'' =>
        cases hd : digVal c2 with
        | none => simp [hd] at h
        | some d =>
          simp only [hd] at h
          cases h
          have := parseDigits_length d l''
          simp only [List.length_cons]
          omega
    · simp only [if_neg hc] at h
      cases hd : digVal c with
      | none => simp [hd] at h
      | some d =>
        simp only [hd] at h
        cases h
        have := parseDigits_length d l'
        simp only [List.length_cons]
        omega

theorem parse_consume (f : Nat) :
    (∀ l v rest, parseVal f l = some (v, rest) → rest.length < l.length) ∧
    (∀ l vs rest, parseElems f l = some (vs, rest) → rest.length < l.length) ∧
    (∀ l kvs rest, parseFields f l = some (kvs, rest) → rest.length < l.length) := by
  induction f with
  | zero =>
    refine ⟨?_, ?_, ?_⟩ <;> intro l v rest h
    · simp [parseVal] at h
    · simp [parseElems] at h
    · simp [parseFields] at h
  | succ f ih =>
    obtain ⟨ihV, ihE, ihF⟩ := ih
    refine ⟨?_, ?_, ?_⟩
    · intro l v rest h
      have hsk := skipWs_length_le l
      rw [parseVal] at h
      split at h
      · rename_i x0 r0 heq
        have hlen := congrArg List.length heq
        simp only [List.length_cons] at hlen
        have hr : r0 = rest := congrArg Prod.snd (Option.some.inj h)
        subst hr
        omega
      · rename_i x0 r0 heq
        have hlen := congrArg List.length heq
        simp only [List.length_cons] at hlen
        have hr : r0 = rest := congrArg Prod.snd (Option.some.inj h)
        subst hr
        omega
      · rename_i x0 r0 heq
        have hlen := congrArg List.length heq
        simp only [List.length_cons] at hlen
        have hr : r0 = rest := congrArg Prod.snd (Option.some.inj h)
        subst hr
        omega
      · rename_i x0 r0 heq
        have hlen := congrArg List.length heq
        simp only [List.length_cons] at hlen
        cases hp : parseStrBody r0 with
        | none => rw [hp] at h; simp at h
        | some p =>
          obtain ⟨t, r2⟩ := p
          rw [hp] at h
          simp only [Option.map_some'] at h
          have hr : r2 = rest := congrArg Prod.snd (Option.some.inj h)
          have hb := parseStrBody_length hp
          subst hr
          omega
      · rename_i x0 r0 heq
        have hlen := congrArg List.length heq
        simp only [List.length_cons] at hlen
        have hsk2 := skipWs_length_le r0
        split at h
        · rename_i r1 heq2
          have hlen2 := congrArg List.length heq2
          simp only [List.length_cons] at hlen2
          have hr : r1 = rest := congrArg Prod.snd (Option.some.inj h)
          subst hr
          omega
        · cases hp : parseElems f (skipWs r0) with
          | none => rw [hp] at h; simp at h
          | some p =>
            obtain ⟨vs, r2⟩ := p
            rw [hp] at h
            simp only [Option.map_some'] at h
            have hr : r2 = rest := congrArg Prod.snd (Option.some.inj h)
            have hb := ihE (skipWs r0) vs r2 hp
            subst hr
            omega
      · rename_i x0 r0 heq
        have hlen := congrArg List.length heq
        simp only [List.length_cons] at hlen
        have hsk2 := skipWs_length_le r0
        split at h
        · rename_i r1 heq2
          have hlen2 := congrArg List.length heq2
          simp only [List.length_cons] at hlen2
          have hr : r1 = rest := congrArg Prod.snd (Option.some.inj h)
          subst hr
          omega
        · cases hp : parseFields f (skipWs r0) with
          | none => rw [hp] at h; simp at h
          | some p =>
            obtain ⟨kvs, r2⟩ := p
            rw [hp] at h
            simp only [Option.map_some'] at h
            have hr : r2 = rest := congrArg Prod.snd (Option.some.inj h)
            have hb := ihF (skipWs r0) kvs r2 hp
            subst hr
            omega
      · have hb := parseNum_length h
        omega
    · intro l vs rest h
      rw [parseElems] at h
      split at h
      · simp at h
      · rename_i p v0 r0 heq
        have hv := ihV l v0 r0 heq
        have hsk2 := skipWs_length_le r0
        split at h
        · rename_i r1 heq2
          have hlen2 := congrArg List.length heq2
          simp only [List.length_cons] at hlen2
          cases hp : parseElems f r1 with
          | none => rw [hp] at h; simp at h
          | some p2 =>
            obtain ⟨vs2, r2⟩ := p2
            rw [hp] at h
            simp only [Option.map_some'] at h
            have hr : r2 = rest := congrArg Prod.snd (Option.some.inj h)
            have hb := ihE r1 vs2 r2 hp
            subst hr
            omega
        · rename_i r1 heq2
          have hlen2 := congrArg List.length heq2
          simp only [List.length_cons] at hlen2
          have hr : r1 = rest := congrArg Prod.snd (Option.some.inj h)
          subst hr
          omega
        · simp at h
    · intro l kvs rest h
      have hsk := skipWs_length_le l
      rw [parseFields] at h
      split at h
      · rename_i x0 rk heq
        have hlen := congrArg List.length heq
        simp only [List.length_cons] at hlen
        split at h
        · simp at h
        · rename_i p k rv heq2
          have hkb := parseStrBody_length heq2
          have hsk2 := skipWs_length_le rv
          split at h
          · rename_i rv1 heq3
            have hlen3 := congrArg List.length heq3
            simp only [List.length_cons] at hlen3
            split at h
            · simp at h
            · rename_i p2 v0 r0 heq4
              have hv := ihV rv1 v0 r0 heq4
              have hsk3 := skipWs_length_le r0
              split at h
              · rename_i r1 heq5
                have hlen5 := congrArg List.length heq5
                simp only [List.length_cons] at hlen5
                cases hp2 : parseFields f r1 with
                | none => rw [hp2] at h; simp at h
                | some p3 =>
                  obtain ⟨kvs2, r2⟩ := p3
                  rw [hp2] at h
                  simp only [Option.map_some'] at h
                  have hr : r2 = rest := congrArg Prod.snd (Option.some.inj h)
                  have hb := ihF r1 kvs2 r2 hp2
                  subst hr
                  omega
              · rename_i r1 heq5
                have hlen5 := congrArg List.length heq5
                simp only [List.length_cons] at hlen5
                have hr : r1 = rest := congrArg Prod.snd (Option.some.inj h)
                subst hr
                omega
              · simp at h
          · simp at h
      · simp at h

/-! ### Round trip: parsing inverts serialization.  Needed for the idempotent
parsing property C1. -/

theorem hexVal_hexDig {x : Nat} (hx : x < 16) : hexVal (hexDig x) = some x := by
  interval_cases x <;> decide

theorem skipWs_cons {c : Char} (l : List Char) (h : isWsChar c = false) :
    skipWs (c :: l) = c :: l := by
  simp [skipWs, h]

theorem parseStrBody_quote (rest : List Char) :
    parseStrBody ('\u0022' :: rest) = some ([], rest) := by
  rw [parseStrBody.eq_def]
  simp

theorem parseStrBody_raw {c : Char} (h1 : c ≠ '\u0022') (h2 : c ≠ '\\')
    (rest : List Char) :
    parseStrBody (c :: rest) = (parseStrBody rest).map (fun p => (c :: p.1, p.2)) := by
  rw [parseStrBody.eq_def]
  simp [h1, h2]

theorem parseStrBody_esc (e : Char) (he : e ≠ 'u') (rest : List Char) :
    parseStrBody ('\\' :: e :: rest) =
      match escDecode e with
      | some d => (parseStrBody rest).map (fun p => (d :: p.1, p.2))
      | none => none := by
  rw [parseStrBody.eq_def]
  simp [he]

theorem parseStrBody_hex (a1 a2 a3 a4 : Char) (rest : List Char) :
    parseStrBody ('\\' :: 'u' :: a1 :: a2 :: a3 :: a4 :: rest) =
      match hexQuad a1 a2 a3 a4 with
      | some n =>
        if n.isValidChar then
          (parseStrBody rest).map (fun p => (Char.ofNat n :: p.1, p.2))
        else none
      | none => none := by
  rw [parseStrBody.eq_def]
  simp

theorem parseStrBody_escBody : ∀ (s rest : List Char),
    parseStrBody (escBody s ++ '\u0022' :: rest) = some (s, rest) := by
  intro s
  induction s with
  | nil =>
    intro rest
    rw [escBody, List.nil_append, parseStrBody_quote]
  | cons c cs ih =>
    intro rest
    rw [escBody, List.append_assoc, escChar]
    by_cases h1 : c = '\u0022'
    · subst h1
      rw [if_pos rfl]
      simp only [List.cons_append, List.nil_append]
      rw [parseStrBody_esc '\u0022' (by decide), show escDecode '\u0022' = some '\u0022' from rfl,
        ih]
      rfl
    · rw [if_neg h1]
      by_cases h2 : c = '\\'
      · subst h2
        rw [if_pos rfl]
        simp only [List.cons_append, List.nil_append]
        rw [parseStrBody_esc '\\' (by decide), show escDecode '\\' = some '\\' from rfl, ih]
        rfl
      · rw [if_neg h2]
        by_cases h3 : c = '\n'
        · subst h3
          rw [if_pos rfl]
          simp only [List.cons_append, List.nil_append]
          rw [parseStrBody_esc 'n' (by decide), show escDecode 'n' = some '\n' from rfl, ih]
          rfl
        · rw [if_neg h3]
          by_cases h4 : c = '\t'
          · subst h4
            rw [if_pos rfl]
            simp only [List.cons_append, List.nil_append]
            rw [parseStrBody_esc 't' (by decide), show escDecode 't' = some '\t' from rfl, ih]
            rfl
          · rw [if_neg h4]
            by_cases h5 : c = '\r'
            · subst h5
              rw [if_pos rfl]
              simp only [List.cons_append, List.nil_append]
              rw [parseStrBody_esc 'r' (by decide), show escDecode 'r' = some '\r' from rfl,
                ih]
              rfl
            · rw [if_neg h5]
              by_cases h6 : c.toNat < 32
              · rw [if_pos h6]
                have hhi : hexVal (hexDig (c.toNat / 16)) = some (c.toNat / 16) :=
                  hexVal_hexDig (by omega)
                have hlo : hexVal (hexDig (c.toNat % 16)) = some (c.toNat % 16) :=
                  hexVal_hexDig (Nat.mod_lt _ (by omega))
                have hq : hexQuad '0' '0' (hexDig (c.toNat / 16)) (hexDig (c.toNat % 16)) =
                    some c.toNat := by
                  rw [hexQuad]
                  rw [show hexVal '0' = some 0 from rfl]
                  rw [hhi, hlo]
                  simp only [Option.some.injEq]
                  omega
                have hval : c.toNat.isValidChar := by
                  left
                  have : c.toNat < 32 := h6
                  omega
                simp only [List.cons_append, List.nil_append]
                rw [parseStrBody_hex, hq]
                simp [hval, ih]
              · rw [if_neg h6]
                simp only [List.cons_append, List.nil_append]
                rw [parseStrBody_raw h1 h2, ih]
                rfl

mutual

/-- Fuel needed by `parseVal` to parse the serialization of a value. -/
def cost : JVal → Nat
  | .null => 1
  | .bool _ => 1
  | .num _ => 1
  | .str _ => 1
  | .arr xs => costElems xs + 1
  | .obj kvs => costFields kvs + 1

/-- Fuel needed by `parseElems` for a list of array elements. -/
def costElems : List JVal → Nat
  | [] => 0
  | x :: xs => cost x + costElems xs + 1

/-- Fuel needed by `parseFields` for a list of object fields. -/
def costFields : List (List Char × JVal) → Nat
  | [] => 0
  | kv :: kvs => cost kv.2 + costFields kvs + 1

end

theorem cost_pos (v : JVal) : 1 ≤ cost v := by
  cases v <;> rw [cost] <;> omega

theorem serialize_head (v : JVal) (hv : noNum v = true) :
    ∃ c tail, serialize v = c :: tail ∧ isWsChar c = false ∧ c ≠ ']' ∧ c ≠ '\x7d' := by
  cases v with
  | null => exact ⟨'n', _, rfl, by decide, by decide, by decide⟩
  | bool b =>
    cases b
    · exact ⟨'f', _, rfl, by decide, by decide, by decide⟩
    · exact ⟨'t', _, rfl, by decide, by decide, by decide⟩
  | num n => exact absurd hv (by rw [noNum]; simp)
  | str s => exact ⟨'\u0022', _, rfl, by decide, by decide, by decide⟩
  | arr xs => exact ⟨'[', _, rfl, by decide, by decide, by decide⟩
  | obj kvs => exact ⟨'\x7b', _, rfl, by decide, by decide, by decide⟩

theorem serElems_cons_head (x : JVal) (xs : List JVal) :
    ∃ q, serElems (x :: xs) = serialize x ++ q := by
  cases xs with
  | nil =>
    refine ⟨[], ?_⟩
    rw [serElems]
    simp
  | cons y ys => exact ⟨',' :: serElems (y :: ys), by rw [serElems]⟩

theorem serFields_cons_shape (k : List Char) (v : JVal)
    (kvs : List (List Char × JVal)) :
    ∃ q, serFields ((k, v) :: kvs) =
      '\u0022' :: (escBody k ++ '\u0022' :: ':' :: (serialize v ++ q)) := by
  cases kvs with
  | nil =>
    refine ⟨[], ?_⟩
    rw [serFields]
    simp [serStr]
  | cons kv kvs2 =>
    refine ⟨',' :: serFields (kv :: kvs2), ?_⟩
    rw [serFields]
    simp [serStr]

theorem parseVal_null (f : Nat) (rest : List Char) :
    parseVal (f + 1) ('n' :: 'u' :: 'l' :: 'l' :: rest) = some (.null, rest) := by
  rw [parseVal, skipWs_cons _ (by decide)]
  rfl

theorem parseVal_true (f : Nat) (rest : List Char) :
    parseVal (f + 1) ('t' :: 'r' :: 'u' :: 'e' :: rest) = some (.bool true, rest) := by
  rw [parseVal, skipWs_cons _ (by decide)]
  rfl

theorem parseVal_false (f : Nat) (rest : List Char) :
    parseVal (f + 1) ('f' :: 'a' :: 'l' :: 's' :: 'e' :: rest) =
      some (.bool false, rest) := by
  rw [parseVal, skipWs_cons _ (by decide)]
  rfl

theorem parseVal_quote (f : Nat) (rest : List Char) :
    parseVal (f + 1) ('\u0022' :: rest) =
      (parseStrBody rest).map (fun p => (JVal.str p.1, p.2)) := by
  rw [parseVal, skipWs_cons _ (by decide)]
  rfl

theorem parseVal_arr (f : Nat) (rest : List Char) :
    parseVal (f + 1) ('[' :: rest) =
      (match skipWs rest with
       | ']' :: rest' => some (.arr [], rest')
       | l' => (parseElems f l').map (fun p => (.arr p.1, p.2))) := by
  rw [parseVal, skipWs_cons _ (by decide)]
  rfl

theorem parseVal_obj (f : Nat) (rest : List Char) :
    parseVal (f + 1) ('\x7b' :: rest) =
      (match skipWs rest with
       | '\x7d' :: rest' => some (.obj [], rest')
       | l' => (parseFields f l').map (fun p => (.obj p.1, p.2))) := by
  rw [parseVal, skipWs_cons _ (by decide)]
  rfl

theorem parseElems_some (f : Nat) (l : List Char) (v : JVal) (rest : List Char)
    (h : parseVal f l = some (v, rest)) :
    parseElems (f + 1) l =
      (match skipWs rest with
       | ',' :: rest' => (parseElems f rest').map (fun p => (v :: p.1, p.2))
       | ']' :: rest' => some ([v], rest')
       | _ => none) := by
  rw [parseElems, h]

theorem parseFields_quoteKey (f : Nat) (rk : List Char) :
    parseFields (f + 1) ('\u0022' :: rk) =
      (match parseStrBody rk with
       | none => none
       | some (k, restv) =>
         match skipWs restv with
         | ':' :: restv' =>
           (match parseVal f restv' with
            | none => none
            | some (v, rest) =>
              match skipWs rest with
              | ',' :: rest' => (parseFields f rest').map (fun p => ((k, v) :: p.1, p.2))
              | '\x7d' :: rest' => some ([(k, v)], rest')
              | _ => none)
         | _ => none) := by
  rw [parseFields, skipWs_cons _ (by decide)]
  rfl

theorem parseFields_step (f : Nat) (k restv : List Char) :
    parseFields (f + 1) ('\u0022' :: (escBody k ++ '\u0022' :: ':' :: restv)) =
      (match parseVal f restv with
       | none => none
       | some (v, rest) =>
         match skipWs rest with
         | ',' :: rest' => (parseFields f rest').map (fun p => ((k, v) :: p.1, p.2))
         | '\x7d' :: rest' => some ([(k, v)], rest')
         | _ => none) := by
  rw [parseFields_quoteKey, parseStrBody_escBody]
  rfl

theorem parse_ser (f : Nat) :
    (∀ v rest, noNum v = true → cost v ≤ f →
        parseVal f (serialize v ++ rest) = some (v, rest)) ∧
    (∀ xs rest, noNumElems xs = true → xs ≠ [] → costElems xs ≤ f →
        parseElems f (serElems xs ++ ']' :: rest) = some (xs, rest)) ∧
    (∀ kvs rest, noNumFields kvs = true → kvs ≠ [] → costFields kvs ≤ f →
        parseFields f (serFields kvs ++ '\x7d' :: rest) = some (kvs, rest)) := by
  induction f with
  | zero =>
    refine ⟨?_, ?_, ?_⟩
    · intro v rest hnn hc
      exact absurd hc (by have := cost_pos v; omega)
    · intro xs rest hnn hne hc
      cases xs with
      | nil => exact absurd rfl hne
      | cons x xs2 =>
        rw [costElems] at hc
        omega
    · intro kvs rest hnn hne hc
      cases kvs with
      | nil => exact absurd rfl hne
      | cons kv kvs2 =>
        rw [costFields] at hc
        omega
  | succ f ih =>
    obtain ⟨ihV, ihE, ihF⟩ := ih
    refine ⟨?_, ?_, ?_⟩
    · intro v rest hnn hc
      cases v with
      | null =>
        rw [show serialize .null ++ rest = 'n' :: 'u' :: 'l' :: 'l' :: rest from rfl]
        exact parseVal_null f rest
      | bool b =>
        cases b
        · rw [show serialize (.bool false) ++ rest
              = 'f' :: 'a' :: 'l' :: 's' :: 'e' :: rest from rfl]
          exact parseVal_false f rest
        · rw [show serialize (.bool true) ++ rest
              = 't' :: 'r' :: 'u' :: 'e' :: rest from rfl]
          exact parseVal_true f rest
      | num n => exact absurd hnn (by rw [noNum]; simp)
      | str s =>
        rw [show serialize (.str s) ++ rest = '\u0022' :: (escBody s ++ '\u0022' :: rest) by
          simp [serialize, serStr]]
        rw [parseVal_quote, parseStrBody_escBody]
        rfl
      | arr xs =>
        rw [show serialize (.arr xs) ++ rest = '[' :: (serElems xs ++ ']' :: rest) by
          simp [serialize]]
        rw [parseVal_arr]
        cases xs with
        | nil =>
          rw [show serElems [] ++ ']' :: rest = ']' :: rest from rfl]
          rw [skipWs_cons _ (by decide)]
          rfl
        | cons x xs2 =>
          have hnnE : noNumElems (x :: xs2) = true := by rw [noNum] at hnn; exact hnn
          have hnnx : noNum x = true := by
            rw [noNumElems, Bool.and_eq_true] at hnnE
            exact hnnE.1
          have hcE : costElems (x :: xs2) ≤ f := by
            rw [cost] at hc
            omega
          obtain ⟨q, hq⟩ := serElems_cons_head x xs2
          obtain ⟨c, tail, hser, hws, hbr, hbr2⟩ := serialize_head x hnnx
          rw [hq, List.append_assoc, hser, List.cons_append]
          rw [skipWs_cons _ hws]
          split
          · rename_i rest2 heq
            have hch : c = ']' := by
              have := congrArg (fun l : List Char => l.headD ' ') heq
              simpa using this
            exact absurd hch hbr
          · have hback : c :: (tail ++ (q ++ ']' :: rest))
                = serElems (x :: xs2) ++ ']' :: rest := by
              rw [hq, List.append_assoc, hser, List.cons_append]
            rw [hback]
            rw [ihE (x :: xs2) rest hnnE (by simp) hcE]
            rfl
      | obj kvs =>
        rw [show serialize (.obj kvs) ++ rest = '\x7b' :: (serFields kvs ++ '\x7d' :: rest) by
          simp [serialize]]
        rw [parseVal_obj]
        cases kvs with
        | nil =>
          rw [show serFields [] ++ '\x7d' :: rest = '\x7d' :: rest from rfl]
          rw [skipWs_cons _ (by decide)]
          rfl
        | cons kv kvs2 =>
          obtain ⟨k, v⟩ := kv
          have hnnF : noNumFields ((k, v) :: kvs2) = true := by rw [noNum] at hnn; exact hnn
          have hcF : costFields ((k, v) :: kvs2) ≤ f := by
            rw [cost] at hc
            omega
          obtain ⟨q, hq⟩ := serFields_cons_shape k v kvs2
          rw [hq, List.cons_append]
          rw [skipWs_cons _ (by decide)]
          split
          · rename_i rest2 heq
            have hch : ('\u0022' : Char) = '\x7d' := by
              have := congrArg (fun l : List Char => l.headD ' ') heq
              simpa using this
            exact absurd hch (by decide)
          · have hback : '\u0022' :: (escBody k ++ '\u0022' :: ':' :: (serialize v ++ q) ++ '\x7d' :: rest)
                = serFields ((k, v) :: kvs2) ++ '\x7d' :: rest := by
              rw [hq]
              rfl
            rw [hback]
            rw [ihF ((k, v) :: kvs2) rest hnnF (by simp) hcF]
            rfl
    · intro xs rest hnn hne hc
      cases xs with
      | nil => exact absurd rfl hne
      | cons x xs2 =>
        have hnnx : noNum x = true := by
          rw [noNumElems, Bool.and_eq_true] at hnn
          exact hnn.1
        have hnnxs : noNumElems xs2 = true := by
          rw [noNumElems, Bool.and_eq_true] at hnn
          exact hnn.2
        have hcx : cost x ≤ f := by
          rw [costElems] at hc
          omega
        cases xs2 with
        | nil =>
          have hV := ihV x (']' :: rest) hnnx hcx
          rw [show serElems [x] ++ ']' :: rest = serialize x ++ ']' :: rest by rw [serElems]]
          rw [parseElems_some f _ x (']' :: rest) hV]
          rfl
        | cons y ys =>
          have hV := ihV x (',' :: (serElems (y :: ys) ++ ']' :: rest)) hnnx hcx
          rw [show serElems (x :: y :: ys) ++ ']' :: rest
              = serialize x ++ (',' :: (serElems (y :: ys) ++ ']' :: rest)) by
            rw [serElems]
            simp]
          rw [parseElems_some f _ x _ hV]
          show (parseElems f (serElems (y :: ys) ++ ']' :: rest)).map
              (fun p => (x :: p.1, p.2)) = some (x :: y :: ys, rest)
          rw [ihE (y :: ys) rest hnnxs (by simp)
            (by rw [costElems] at hc; omega)]
          rfl
    · intro kvs rest hnn hne hc
      cases kvs with
      | nil => exact absurd rfl hne
      | cons kv kvs2 =>
        obtain ⟨k, v⟩ := kv
        have hnnv : noNum v = true := by
          rw [noNumFields, Bool.and_eq_true] at hnn
          exact hnn.1
        have hnnkvs : noNumFields kvs2 = true := by
          rw [noNumFields, Bool.and_eq_true] at hnn
          exact hnn.2
        have hcv : cost v ≤ f := by
          rw [costFields] at hc
          simp only [] at hc
          omega
        cases kvs2 with
        | nil =>
          rw [show serFields [(k, v)] ++ '\x7d' :: rest
              = '\u0022' :: (escBody k ++ '\u0022' :: ':' :: (serialize v ++ '\x7d' :: rest)) by
            rw [serFields]
            simp [serStr]]
          rw [parseFields_step]
          rw [ihV v ('\x7d' :: rest) hnnv hcv]
          rfl
        | cons kv2 kvs3 =>
          rw [show serFields ((k, v) :: kv2 :: kvs3) ++ '\x7d' :: rest
              = '\u0022' :: (escBody k ++ '\u0022' :: ':' ::
                  (serialize v ++ (',' :: (serFields (kv2 :: kvs3) ++ '\x7d' :: rest)))) by
            rw [serFields]
            simp [serStr]]
          rw [parseFields_step]
          rw [ihV v (',' :: (serFields (kv2 :: kvs3) ++ '\x7d' :: rest)) hnnv hcv]
          show (parseFields f (serFields (kv2 :: kvs3) ++ '\x7d' :: rest)).map
              (fun p => ((k, v) :: p.1, p.2)) = some ((k, v) :: kv2 :: kvs3, rest)
          rw [ihF (kv2 :: kvs3) rest hnnkvs (by simp)
            (by rw [costFields] at hc; omega)]
          rfl

theorem cost_le_len_aux (n : Nat) :
    (∀ v, noNum v = true → cost v ≤ n → cost v ≤ (serialize v).length) ∧
    (∀ xs, noNumElems xs = true → costElems xs ≤ n →
        costElems xs ≤ (serElems xs).length + 1) ∧
    (∀ kvs, noNumFields kvs = true → costFields kvs ≤ n →
        costFields kvs ≤ (serFields kvs).length + 1) := by
  induction n with
  | zero =>
    refine ⟨?_, ?_, ?_⟩
    · intro v hnn h
      exact absurd h (by have := cost_pos v; omega)
    · intro xs hnn h
      cases xs with
      | nil => simp [costElems]
      | cons x xs2 => rw [costElems] at h; omega
    · intro kvs hnn h
      cases kvs with
      | nil => simp [costFields]
      | cons kv kvs2 => rw [costFields] at h; omega
  | succ n ih =>
    obtain ⟨ihV, ihE, ihF⟩ := ih
    refine ⟨?_, ?_, ?_⟩
    · intro v hnn h
      cases v with
      | null => rw [cost]; simp [serialize]
      | bool b => cases b <;> (rw [cost]; simp [serialize])
      | num m => exact absurd hnn (by rw [noNum]; simp)
      | str s => rw [cost]; simp [serialize, serStr]
      | arr xs =>
        have hnnE : noNumElems xs = true := by rw [noNum] at hnn; exact hnn
        have hE := ihE xs hnnE (by rw [cost] at h; omega)
        rw [cost, serialize]
        simp only [List.length_cons, List.length_append, List.length_singleton]
        omega
      | obj kvs =>
        have hnnF : noNumFields kvs = true := by rw [noNum] at hnn; exact hnn
        have hF := ihF kvs hnnF (by rw [cost] at h; omega)
        rw [cost, serialize]
        simp only [List.length_cons, List.length_append, List.length_singleton]
        omega
    · intro xs hnn h
      cases xs with
      | nil => simp [costElems]
      | cons x xs2 =>
        have hnnx : noNum x = true := by
          rw [noNumElems, Bool.and_eq_true] at hnn
          exact hnn.1
        have hx := ihV x hnnx (by rw [costElems] at h; have := cost_pos x; omega)
        cases xs2 with
        | nil =>
          rw [costElems, costElems, serElems]
          omega
        | cons y ys =>
          have hnny : noNumElems (y :: ys) = true := by
            rw [noNumElems, Bool.and_eq_true] at hnn
            exact hnn.2
          have hr := ihE (y :: ys) hnny (by rw [costElems] at h; have := cost_pos x; omega)
          rw [costElems, serElems]
          simp only [List.length_append, List.length_cons]
          omega
    · intro kvs hnn h
      cases kvs with
      | nil => simp [costFields]
      | cons kv kvs2 =>
        obtain ⟨k, v⟩ := kv
        have hnnv : noNum v = true := by
          rw [noNumFields, Bool.and_eq_true] at hnn
          exact hnn.1
        have hv := ihV v hnnv (by
          rw [costFields] at h
          simp only [] at h
          have := cost_pos v
          omega)
        cases kvs2 with
        | nil =>
          rw [costFields, costFields, serFields]
          simp only [List.length_append, List.length_cons]
          simp only [] at hv ⊢
          omega
        | cons kv2 kvs3 =>
          have hnn2 : noNumFields (kv2 :: kvs3) = true := by
            rw [noNumFields, Bool.and_eq_true] at hnn
            exact hnn.2
          have hr := ihF (kv2 :: kvs3) hnn2 (by
            rw [costFields] at h
            simp only [] at h
            have := cost_pos v
            omega)
          rw [costFields, serFields]
          simp only [List.length_append, List.length_cons]
          simp only [] at hv ⊢
          omega

theorem jparse_serialize (v : JVal) (hnn : noNum v = true) :
    jparse (serialize v) = some v := by
  have hcost : cost v ≤ (serialize v).length + 1 := by
    have := (cost_le_len_aux (cost v)).1 v hnn le_rfl
    omega
  have h := (parse_ser ((serialize v).length + 1)).1 v [] hnn hcost
  rw [List.append_nil] at h
  rw [jparse, h]
  rfl

theorem jparse_null_ex : jparse ("null".data) = some .null := rfl

theorem jparse_arr_ex : jparse ("  [true,null] ".data) = some (.arr [.bool true, .null]) := rfl

theorem jparse_ser_empty_ex : jparse (serialize (.obj [])) = some (.obj []) := rfl

theorem jparse_ser_esc_ex : jparse (serialize (.obj [("a".data, .str "b\n\"x".data)])) =
    some (.obj [("a".data, .str "b\n\"x".data)]) := rfl

theorem jparse_neg_ex : jparse ("-42".data) = some (.num (-42)) := rfl

theorem parseNum_shape {l : List Char} {v : JVal} {rest : List Char}
    (h : parseNum l = some (v, rest)) : ∃ m, v = .num m := by
  cases l with
  | nil => simp [parseNum] at h
  | cons c l2 =>
    simp only [parseNum] at h
    by_cases hc : c = '-'
    · simp only [hc, if_pos rfl] at h
      cases l2 with
      | nil => simp at h
      | cons c2 l3 =>
        cases hd : digVal c2 with
        | none => simp [hd] at h
        | some d =>
          simp only [hd] at h
          exact ⟨_, (congrArg Prod.fst (Option.some.inj h)).symm⟩
    · simp only [if_neg hc] at h
      cases hd : digVal c with
      | none => simp [hd] at h
      | some d =>
        simp only [hd] at h
        exact ⟨_, (congrArg Prod.fst (Option.some.inj h)).symm⟩

theorem parseVal_str_shrink {f : Nat} {l t rest : List Char}
    (h : parseVal f l = some (.str t, rest)) :
    t.length + 2 + rest.length ≤ l.length := by
  cases f with
  | zero => simp [parseVal] at h
  | succ f =>
    have hsk := skipWs_length_le l
    rw [parseVal] at h
    split at h
    · exact JVal.noConfusion (congrArg Prod.fst (Option.some.inj h))
    · exact JVal.noConfusion (congrArg Prod.fst (Option.some.inj h))
    · exact JVal.noConfusion (congrArg Prod.fst (Option.some.inj h))
    · rename_i x0 r0 heq
      have hlen := congrArg List.length heq
      simp only [List.length_cons] at hlen
      cases hp : parseStrBody r0 with
      | none => rw [hp] at h; simp at h
      | some p =>
        obtain ⟨t2, r2⟩ := p
        rw [hp] at h
        simp only [Option.map_some'] at h
        have hpair := Option.some.inj h
        have ht : JVal.str t2 = JVal.str t := congrArg Prod.fst hpair
        have htt : t2 = t := by injection ht
        have hr : r2 = rest := congrArg Prod.snd hpair
        have hb := parseStrBody_length hp
        subst htt
        subst hr
        omega
    · rename_i x0 r0 heq
      split at h
      · exact JVal.noConfusion (congrArg Prod.fst (Option.some.inj h))
      · cases hp : parseElems f (skipWs r0) with
        | none => rw [hp] at h; simp at h
        | some p =>
          rw [hp] at h
          simp only [Option.map_some'] at h
          exact JVal.noConfusion (congrArg Prod.fst (Option.some.inj h))
    · rename_i x0 r0 heq
      split at h
      · exact JVal.noConfusion (congrArg Prod.fst (Option.some.inj h))
      · cases hp : parseFields f (skipWs r0) with
        | none => rw [hp] at h; simp at h
        | some p =>
          rw [hp] at h
          simp only [Option.map_some'] at h
          exact JVal.noConfusion (congrArg Prod.fst (Option.some.inj h))
    · obtain ⟨m, hm⟩ := parseNum_shape h
      exact JVal.noConfusion hm

theorem jparse_str_shrink {l t : List Char} (h : jparse l = some (.str t)) :
    t.length < l.length := by
  rw [jparse] at h
  cases hp : parseVal (l.length + 1) l with
  | none => rw [hp] at h; simp at h
  | some p =>
    obtain ⟨v, rest⟩ := p
    rw [hp] at h
    dsimp only [] at h
    by_cases hw : skipWs rest = []
    · rw [if_pos hw] at h
      have hv : v = .str t := Option.some.inj h
      subst hv
      have := parseVal_str_shrink hp
      omega
    · rw [if_neg hw] at h
      simp at h

/-! ## The `fully_parse_json` unwrap loop (`openai_agent.py`, lines 330-346).

Each loop iteration strips whitespace, removes a leading case-insensitive
`assistant:` prefix, extracts the content of a ```json code fence when the
fence regex matches, and then attempts `orjson.loads`; the loop continues
only when the parse succeeded and produced another string. -/

/-- Python `str.strip` whitespace class (ASCII part). -/
def isPyWs (c : Char) : Bool :=
  c = ' ' || c = '\t' || c = '\n' || c = '\r' || c = '\x0b' || c = '\x0c'

/-- Drop leading Python whitespace. -/
def dropLeadWs : List Char → List Char
  | [] => []
  | c :: cs => if isPyWs c then dropLeadWs cs else c :: cs

/-- Model of Python `str.strip()`. -/
def pyStrip (s : List Char) : List Char :=
  (dropLeadWs (dropLeadWs s).reverse).reverse

/-- Model of `obj.lower().startswith("assistant:")`. -/
def startsWithAssistant (s : List Char) : Bool :=
  (s.take 10).map Char.toLower = "assistant:".data

/-- Model of the prefix removal `obj = obj[len("assistant:"):].strip()`. -/
def stripAssistant (s : List Char) : List Char :=
  if startsWithAssistant s then pyStrip (s.drop 10) else s

/-- The literal `\x60\x60\x60json` that opens a fenced block. -/
def fenceOpen : List Char := "\x60\x60\x60json".data

/-- The literal closing fence. -/
def fenceClose : List Char := "\x60\x60\x60".data

/-- Length of the maximal run of `\s*` characters at the front. -/
def wsRun : List Char → Nat
  | [] => 0
  | c :: cs => if isPyWs c then wsRun cs + 1 else 0

/-- After a candidate closing brace: greedy `\s*` then the closing fence. -/
def closeOk (l : List Char) : Bool :=
  fenceClose.isPrefixOf (l.drop (wsRun l))

/-- Index of the last `\x7d` whose tail admits the closing fence: the greedy
`.*` of the fence regex backtracks to the rightmost viable brace. -/
def lastClose (l : List Char) : Option Nat :=
  (List.range l.length).reverse.find?
    (fun j => l.get? j = some '\x7d' && closeOk (l.drop (j + 1)))

/-- Attempt the fence regex body right after an occurrence of the opening
literal: greedy `\s*`, a literal `\x7b`, greedy `.*` to the last viable
`\x7d`, then `\s*` and the closing fence.  Returns the regex group. -/
def fenceAt (l : List Char) : Option (List Char) :=
  let m := l.drop (wsRun l)
  match m with
  | '\x7b' :: _ =>
    match lastClose m with
    | some j => some (m.take (j + 1))
    | none => none
  | _ => none

/-- Model of `re.search(r"\x60\x60\x60json\s*(\x7b.*\x7d)\s*\x60\x60\x60", obj, re.DOTALL)`:
scan for the leftmost occurrence of the opening literal at which the rest of
the pattern matches, and return the parenthesised group. -/
def findFence : List Char → Option (List Char)
  | [] => none
  | c :: cs =>
    if fenceOpen.isPrefixOf (c :: cs) then
      match fenceAt ((c :: cs).drop 7) with
      | some g => some g
      | none => findFence cs
    else findFence cs

/-- One iteration of string transformations of the unwrap loop, in source
order: `strip`, `assistant:` prefix removal, fence extraction. -/
def unwrapStep (s : List Char) : List Char :=
  let s2 := stripAssistant (pyStrip s)
  match findFence s2 with
  | some g => pyStrip g
  | none => s2

/-- The unwrap loop of `fully_parse_json` with an explicit iteration bound;
`none` means the bound was exhausted.  A non-string input returns at once
(the `while isinstance(obj, str)` guard fails). -/
def fullyParseFuel : Nat → JVal → Option JVal
  | _, .null => some .null
  | _, .bool b => some (.bool b)
  | _, .num n => some (.num n)
  | _, .arr xs => some (.arr xs)
  | _, .obj kvs => some (.obj kvs)
  | 0, .str _ => none
  | fuel + 1, .str s =>
    let s3 := unwrapStep s
    match jparse s3 with
    | none => some (.str s3)
    | some (.str t) => fullyParseFuel fuel (.str t)
    | some w => some w

/-- Iteration bound sufficient for the loop: the string length plus one. -/
def jmeasure : JVal → Nat
  | .str s => s.length + 1
  | _ => 1

/-- Model of `fully_parse_json` (`openai_agent.py`, lines 330-346): run the
unwrap loop; the bound `jmeasure` is proven sufficient below. -/
def fully_parse_json (v : JVal) : JVal :=
  (fullyParseFuel (jmeasure v) v).getD v

theorem dropLeadWs_length (l : List Char) : (dropLeadWs l).length ≤ l.length := by
  induction l with
  | nil => simp [dropLeadWs]
  | cons c cs ih =>
    by_cases h : isPyWs c
    · rw [dropLeadWs, if_pos h]
      simp only [List.length_cons]
      omega
    · rw [dropLeadWs, if_neg h]

theorem pyStrip_length (s : List Char) : (pyStrip s).length ≤ s.length := by
  rw [pyStrip]
  have h1 := dropLeadWs_length s
  have h2 := dropLeadWs_length (dropLeadWs s).reverse
  simp only [List.length_reverse] at h2 ⊢
  omega

theorem stripAssistant_length (s : List Char) :
    (stripAssistant s).length ≤ s.length := by
  rw [stripAssistant]
  by_cases h : startsWithAssistant s
  · rw [if_pos h]
    have h1 := pyStrip_length (s.drop 10)
    have h2 : (s.drop 10).length ≤ s.length := by simp
    omega
  · rw [if_neg h]

theorem fenceAt_length {l g : List Char} (h : fenceAt l = some g) :
    g.length ≤ l.length := by
  rw [fenceAt] at h
  split at h
  · rename_i rest heq
    cases hl : lastClose (l.drop (wsRun l)) with
    | none => rw [hl] at h; simp at h
    | some j =>
      rw [hl] at h
      have hg : (l.drop (wsRun l)).take (j + 1) = g := Option.some.inj h
      rw [← hg]
      calc ((l.drop (wsRun l)).take (j + 1)).length
          ≤ (l.drop (wsRun l)).length := by
            rw [List.length_take]
            exact min_le_right _ _
        _ ≤ l.length := by simp
  · simp at h

theorem findFence_length : ∀ {s g : List Char}, findFence s = some g →
    g.length ≤ s.length := by
  intro s
  induction s with
  | nil => intro g h; simp [findFence] at h
  | cons c cs ih =>
    intro g h
    rw [findFence] at h
    by_cases hp : fenceOpen.isPrefixOf (c :: cs)
    · rw [if_pos hp] at h
      cases hf : fenceAt ((c :: cs).drop 7) with
      | none =>
        rw [hf] at h
        have := ih h
        simp only [List.length_cons]
        omega
      | some g2 =>
        rw [hf] at h
        dsimp only [] at h
        have hg : g2 = g := Option.some.inj h
        subst hg
        have h1 := fenceAt_length hf
        have h2 : ((c :: cs).drop 7).length ≤ (c :: cs).length := by
          simp only [List.length_drop, List.length_cons]
          omega
        simp only [List.length_cons] at h2 ⊢
        omega
    · rw [if_neg hp] at h
      have := ih h
      simp only [List.length_cons]
      omega

theorem unwrapStep_length (s : List Char) : (unwrapStep s).length ≤ s.length := by
  have h1 := pyStrip_length s
  have h2 := stripAssistant_length (pyStrip s)
  rw [unwrapStep]
  cases hf : findFence (stripAssistant (pyStrip s)) with
  | none =>
    dsimp only []
    omega
  | some g =>
    dsimp only []
    have h3 := findFence_length hf
    have h4 := pyStrip_length g
    omega

theorem fullyParseFuel_succ (fuel : Nat) (s : List Char) :
    fullyParseFuel (fuel + 1) (.str s) =
      (match jparse (unwrapStep s) with
       | none => some (.str (unwrapStep s))
       | some (.str t) => fullyParseFuel fuel (.str t)
       | some w => some w) := by
  rw [fullyParseFuel]

theorem fpf_aux : ∀ n m (s : List Char), s.length < m → m ≤ n →
    fullyParseFuel m (.str s) = fullyParseFuel (s.length + 1) (.str s) ∧
    (fullyParseFuel (s.length + 1) (.str s)).isSome = true := by
  intro n
  induction n with
  | zero =>
    intro m s h1 h2
    omega
  | succ n ih =>
    intro m s h1 h2
    cases m with
    | zero => omega
    | succ m2 =>
      rw [fullyParseFuel_succ m2 s, fullyParseFuel_succ s.length s]
      cases hj : jparse (unwrapStep s) with
      | none => exact ⟨rfl, rfl⟩
      | some v =>
        cases v with
        | str t =>
          have hshrink : t.length < s.length := by
            have h3 := jparse_str_shrink hj
            have h4 := unwrapStep_length s
            omega
          have ih1 := ih m2 t (by omega) (by omega)
          have ih2 := ih s.length t hshrink (by omega)
          refine ⟨ih1.1.trans ih2.1.symm, ?_⟩
          dsimp only []
          rw [ih2.1]
          exact ih2.2
        | null => exact ⟨rfl, rfl⟩
        | bool b => exact ⟨rfl, rfl⟩
        | num q => exact ⟨rfl, rfl⟩
        | arr xs => exact ⟨rfl, rfl⟩
        | obj kvs => exact ⟨rfl, rfl⟩

/-- The unwrap loop terminates: with any fuel exceeding `|s|` it produces a
result, because a successful parse that yields another string strictly
shrinks it. -/
theorem fullyParseFuel_terminates (n : Nat) (s : List Char) (h : s.length < n) :
    fullyParseFuel n (.str s) = some (fully_parse_json (.str s)) := by
  obtain ⟨heq, hsome⟩ := fpf_aux n n s h le_rfl
  rw [heq, fully_parse_json]
  rw [show jmeasure (.str s) = s.length + 1 from rfl]
  cases hx : fullyParseFuel (s.length + 1) (.str s) with
  | none => rw [hx] at hsome; simp at hsome
  | some w => rfl

theorem dropLeadWs_cons {c : Char} (l : List Char) (h : isPyWs c = false) :
    dropLeadWs (c :: l) = c :: l := by
  rw [dropLeadWs]
  simp [h]

theorem pyStrip_of_bounds {c d : Char} (mid : List Char)
    (hc : isPyWs c = false) (hd : isPyWs d = false) :
    pyStrip (c :: (mid ++ [d])) = c :: (mid ++ [d]) := by
  rw [pyStrip, dropLeadWs_cons _ hc]
  rw [show (c :: (mid ++ [d])).reverse = d :: (mid.reverse ++ [c]) by simp]
  rw [dropLeadWs_cons _ hd]
  rw [show (d :: (mid.reverse ++ [c])).reverse = c :: (mid ++ [d]) by simp]

theorem startsWithAssistant_brace (l : List Char) :
    startsWithAssistant ('\x7b' :: l) = false := by
  rw [startsWithAssistant]
  rw [show ('\x7b' :: l).take 10 = '\x7b' :: l.take 9 from rfl]
  rw [List.map]
  simp [show Char.toLower '\x7b' = '\x7b' from rfl]

/-- C1 (amended): the parsing round trip holds for canonical messages whose
serialized text does not trigger the ```json code-fence regex:
`fully_parse_json` recovers the object from its serialization, and on an
already-parsed dict it is the identity; a message whose text embeds a code
fence is replaced by the fenced object instead. -/
theorem fully_parse_json_obj_roundtrip (kvs : List (List Char × JVal))
    (hnn : noNum (.obj kvs) = true)
    (hfence : findFence (serialize (.obj kvs)) = none) :
    fully_parse_json (.str (serialize (.obj kvs))) = .obj kvs ∧
    fully_parse_json (.obj kvs) = .obj kvs := by
  have hL : serialize (.obj kvs) = '\x7b' :: (serFields kvs ++ ['\x7d']) := rfl
  have hps : pyStrip (serialize (.obj kvs)) = serialize (.obj kvs) := by
    rw [hL]
    exact pyStrip_of_bounds _ (by decide) (by decide)
  have hsa : stripAssistant (serialize (.obj kvs)) = serialize (.obj kvs) := by
    rw [stripAssistant]
    rw [show startsWithAssistant (serialize (.obj kvs)) = false by
      rw [hL]
      exact startsWithAssistant_brace _]
    simp
  have hstep : unwrapStep (serialize (.obj kvs)) = serialize (.obj kvs) := by
    rw [unwrapStep, hps, hsa, hfence]
  constructor
  · rw [fully_parse_json]
    rw [show jmeasure (.str (serialize (.obj kvs)))
        = (serialize (.obj kvs)).length + 1 from rfl]
    rw [fullyParseFuel_succ, hstep, jparse_serialize _ hnn]
    rfl
  · rw [fully_parse_json]
    rfl

/-- Concrete agent message whose text field contains a ```json code fence;
serializing and re-parsing it does not return the original message, because
the fence regex fires on the serialized form and replaces the whole document
with the fenced `\x7b\x7d`. -/
def fenceMsg : JVal :=
  .obj [("whatsapp_type".data, .str "text".data),
        ("message".data, .str "\x60\x60\x60json \x7b\x7d \x60\x60\x60".data)]

theorem fully_parse_fence_ex : fully_parse_json (.str (serialize fenceMsg)) = .obj [] := rfl

/-! ## Python-level semantics: exceptions, container operations, text
cleaning.  Every Python primitive that can raise is modelled in `Except`. -/

/-- Python exceptions that the modelled code can raise. -/
inductive PyErr : Type where
  | typeErr : PyErr
  | attrErr : PyErr
  | keyErr : PyErr
  | nameErr : PyErr
  deriving DecidableEq, Repr

/-- Boolean substring test, the model of Python `pat in s` on strings. -/
def containsSub (pat : List Char) : List Char → Bool
  | [] => pat.isPrefixOf []
  | c :: rest => pat.isPrefixOf (c :: rest) || containsSub pat rest

/-- Model of Python `k in v` for an arbitrary value: key membership for
dicts, substring test for strings, element membership for lists, and
`TypeError` otherwise. -/
def pyIn (k : List Char) (v : JVal) : Except PyErr Bool :=
  match v with
  | .obj _ => .ok (v.hasKey k)
  | .str s => .ok (containsSub k s)
  | .arr xs => .ok (xs.any (fun x => beqJ x (.str k)))
  | _ => .error .typeErr

/-- Model of Python `v[k]` with a string key: dict lookup (`KeyError` when
missing), `TypeError` on strings/lists (string indices must be integers)
and on all other values. -/
def pyIndex (v : JVal) (k : List Char) : Except PyErr JVal :=
  match v with
  | .obj fields =>
    match JVal.lookup k fields with
    | some w => .ok w
    | none => .error .keyErr
  | _ => .error .typeErr

/-- Model of Python `v.get(k, d)`: only dicts have `.get`; anything else
raises `AttributeError`. -/
def pyGetD (v : JVal) (k : List Char) (d : JVal) : Except PyErr JVal :=
  match v with
  | .obj fields => .ok ((JVal.lookup k fields).getD d)
  | _ => .error .attrErr

/-- Model of Python iteration `for x in v`: list elements, characters of a
string (each as a one-character string), keys of a dict; `TypeError`
otherwise. -/
def pyIter (v : JVal) : Except PyErr (List JVal) :=
  match v with
  | .arr xs => .ok xs
  | .str s => .ok (s.map (fun c => .str [c]))
  | .obj kvs => .ok (kvs.map (fun kv => .str kv.1))
  | _ => .error .typeErr

mutual

/-- Model of Python `repr` restricted to JSON-like values. -/
def pyRepr : JVal → List Char
  | .null => "None".data
  | .bool true => "True".data
  | .bool false => "False".data
  | .num n => intChars n
  | .str s => '\x27' :: s ++ ['\x27']
  | .arr xs => '[' :: pyReprElems xs ++ [']']
  | .obj kvs => '\x7b' :: pyReprFields kvs ++ ['\x7d']

/-- `repr` of list elements, comma-and-space separated. -/
def pyReprElems : List JVal → List Char
  | [] => []
  | [x] => pyRepr x
  | x :: y :: xs => pyRepr x ++ ',' :: ' ' :: pyReprElems (y :: xs)

/-- `repr` of dict entries, comma-and-space separated. -/
def pyReprFields : List (List Char × JVal) → List Char
  | [] => []
  | [(k, v)] => pyRepr (.str k) ++ ':' :: ' ' :: pyRepr v
  | (k, v) :: kv :: kvs =>
    pyRepr (.str k) ++ ':' :: ' ' :: pyRepr v ++ ',' :: ' ' :: pyReprFields (kv :: kvs)

end

/-- Model of Python `str(v)`. -/
def pyStr : JVal → List Char
  | .str s => s
  | v => pyRepr v

/-- Remainder of the input after the first `>` closing an HTML tag, provided
at least one non-`>` character precedes it (the regex is `<[^>]+>`). -/
def findTagEnd : List Char → Option (List Char)
  | [] => none
  | c :: rest =>
    if c = '>' then none
    else tagScan rest
where
  tagScan : List Char → Option (List Char)
    | [] => none
    | c :: rest => if c = '>' then some rest else tagScan rest

/-- Fuelled worker for HTML tag stripping. -/
def stripHtmlF : Nat → List Char → List Char
  | 0, l => l
  | _, [] => []
  | fuel + 1, c :: rest =>
    if c = '<' then
      match findTagEnd rest with
      | some rest2 => stripHtmlF fuel rest2
      | none => c :: stripHtmlF fuel rest
    else c :: stripHtmlF fuel rest

/-- Model of `re.sub(r"<[^>]+>", "", text)`: remove HTML tags. -/
def stripHtml (l : List Char) : List Char :=
  stripHtmlF l.length l

/-- Fuelled worker for whitespace collapsing. -/
def collapseWsF : Nat → List Char → List Char
  | 0, l => l
  | _, [] => []
  | fuel + 1, c :: rest =>
    if isPyWs c then ' ' :: collapseWsF fuel (dropLeadWs rest)
    else c :: collapseWsF fuel rest

/-- Model of `re.sub(r"\s+", " ", text)`: collapse whitespace runs. -/
def collapseWs (l : List Char) : List Char :=
  collapseWsF l.length l

/-- Model of the local `clean_text(text, maxlen)` of
`normalize_interactive_list`: strip HTML, collapse whitespace, strip, then
truncate to `maxlen`. -/
def clean_text (t : JVal) (maxlen : Nat) : List Char :=
  (pyStrip (collapseWs (stripHtml (pyStr t)))).take maxlen

/-- The `whatsapp_type` discriminator key. -/
def wtKey : List Char := "whatsapp_type".data

/-- The `interactive_list` discriminator value. -/
def ilVal : List Char := "interactive_list".data

/-- Model of `response.get(k) == tgt` for a string target. -/
def jvalGetEq (v : JVal) (k tgt : List Char) : Bool :=
  match v.get k with
  | some w => beqJ w (.str tgt)
  | none => false

/-- `all(k in response for k in ("header", "body", "items"))`. -/
def hasFlatKeys (v : JVal) : Bool :=
  v.hasKey "header".data && v.hasKey "body".data && v.hasKey "items".data

/-! ## `normalize_interactive_list` (`openai_agent.py`, lines 246-306) and
`normalize_button_template` (lines 322-328).

Note the source's control flow: the fallback `return` on line 300 is
indented at function level, so every dict that is not an already-returned
interactive list reaches it, and for a dict whose `whatsapp_type` is not
`"interactive_list"` the name `items` is unbound there (`NameError`); the
`return response` on line 306 is unreachable. -/

/-- Items built from `interactiveList.list.sections[*].items[*]`
(lines 266-275): `payload` stringified and duplicated into `id`, `title`
and `description` cleaned and truncated to 24/72. -/
def ilItemsOfSection (items : List JVal) : Except PyErr (List JVal) :=
  match items with
  | [] => .ok []
  | it :: rest => do
    let payloadV ← pyGetD it "payload".data (.str [])
    let titleV ← pyGetD it "title".data (.str [])
    let descV ← pyGetD it "description".data (.str [])
    let pv := pyStr payloadV
    let more ← ilItemsOfSection rest
    .ok (JVal.obj [("id".data, .str pv), ("payload".data, .str pv),
      ("title".data, .str (clean_text titleV 24)),
      ("description".data, .str (clean_text descV 72))] :: more)

/-- Flatten all sections' items, preserving encounter order. -/
def ilItems (sections : List JVal) : Except PyErr (List JVal) :=
  match sections with
  | [] => .ok []
  | sec :: rest => do
    let itemsV ← pyGetD sec "items".data (.arr [])
    let its ← pyIter itemsV
    let built ← ilItemsOfSection its
    let more ← ilItems rest
    .ok (built ++ more)

/-- The `interactiveList` branch (lines 262-283); `some` is a `return`
from the Python function, `none` falls through. -/
def ilBranch (response : JVal) : Except PyErr (Option JVal) :=
  if response.hasKey "interactiveList".data then do
    let interactive := (response.get "interactiveList".data).getD .null
    let hasList ← pyIn "list".data interactive
    if hasList then do
      let listObj ← pyIndex interactive "list".data
      let sectionsV ← pyGetD listObj "sections".data (.arr [])
      let secs ← pyIter sectionsV
      let items ← ilItems secs
      let headerV ← pyGetD listObj "title".data (.str "LEVA Properties".data)
      let bodyOuter ← pyGetD interactive "body".data (.obj [])
      let bodyV ← pyGetD bodyOuter "text".data (.str "Choose a property:".data)
      .ok (some (.obj [(wtKey, .str ilVal), ("header".data, headerV),
        ("body".data, bodyV), ("items".data, .arr items)]))
    else .ok none
  else .ok none

/-- Items built from `sections[*].rows[*]` (lines 286-292). -/
def rowItemsOfSection (rows : List JVal) : Except PyErr (List JVal) :=
  match rows with
  | [] => .ok []
  | row :: rest => do
    let titleV ← pyGetD row "title".data (.str [])
    let descV ← pyGetD row "description".data (.str [])
    let idV ← pyGetD row "id".data (.str [])
    let more ← rowItemsOfSection rest
    .ok (JVal.obj [("title".data, .str (clean_text titleV 24)),
      ("description".data, .str (clean_text descV 72)),
      ("payload".data, .str (pyStr idV))] :: more)

/-- Rows of all sections, flattened in order. -/
def rowItems (sections : List JVal) : Except PyErr (List JVal) :=
  match sections with
  | [] => .ok []
  | sec :: rest => do
    let rowsV ← pyGetD sec "rows".data (.arr [])
    let rws ← pyIter rowsV
    let built ← rowItemsOfSection rws
    let more ← rowItems rest
    .ok (built ++ more)

/-- The `sections` branch (lines 285-298). -/
def secBranch (response : JVal) : Except PyErr (Option JVal) :=
  if response.hasKey "sections".data then do
    let secsV := (response.get "sections".data).getD .null
    let secs ← pyIter secsV
    let items ← rowItems secs
    .ok (some (.obj [(wtKey, .str ilVal),
      ("header".data, (response.get "title".data).getD (.str "LEVA Properties".data)),
      ("body".data, (response.get "body".data).getD (.str "Choose a property:".data)),
      ("items".data, .arr items)]))
  else .ok none

/-- Model of `normalize_interactive_list` (lines 246-306). -/
def normalize_interactive_list (response : JVal) : Except PyErr JVal :=
  match response with
  | .obj _ =>
    if jvalGetEq response wtKey ilVal then
      if hasFlatKeys response then .ok response
      else do
        let r1 ← ilBranch response
        match r1 with
        | some v => .ok v
        | none => do
          let r2 ← secBranch response
          match r2 with
          | some v => .ok v
          | none =>
            .ok (.obj [(wtKey, .str ilVal),
              ("header".data, (response.get "title".data).getD (.str "LEVA Properties".data)),
              ("body".data, (response.get "body".data).getD (.str "Choose a property:".data)),
              ("items".data, .arr [])])
    else .error .nameErr
  | _ => .ok response

/-- Model of Python dict assignment `d[k] = v`: replace in place when the
key exists, append otherwise. -/
def setKey : List (List Char × JVal) → List Char → JVal → List (List Char × JVal)
  | [], k, v => [(k, v)]
  | (k', v') :: rest, k, v =>
    if k' = k then (k, v) :: rest else (k', v') :: setKey rest k v

/-- Model of `normalize_button_template` (lines 322-328): force the
canonical upsell template id on any dict tagged `buttonTemplate`. -/
def normalize_button_template (response : JVal) : Except PyErr JVal :=
  match response with
  | .obj kvs =>
    if jvalGetEq response wtKey "buttonTemplate".data then
      .ok (.obj (setKey kvs "template_id".data (.str "zoko_upsell_product_01".data)))
    else .ok response
  | _ => .ok response

theorem normalize_attrErr_ex : normalize_interactive_list (.obj [(wtKey, .str ilVal),
    ("interactiveList".data,
      .obj [("list".data, .obj []), ("body".data, .str "x".data)])]) =
    .error .attrErr := rfl

theorem normalize_nameErr_ex : normalize_interactive_list (.obj [(wtKey, .str "text".data)]) =
    .error .nameErr := rfl

theorem normalize_flatten_ex : normalize_interactive_list (.obj [(wtKey, .str ilVal),
    ("interactiveList".data,
      .obj [("body".data, .obj [("text".data, .str "Found 2".data)]),
            ("list".data, .obj [("title".data, .str "X".data),
              ("sections".data, .arr [.obj [("items".data, .arr [
                .obj [("title".data, .str "A".data),
                      ("description".data, .str []),
                      ("payload".data, .str "1".data)]])]])])])]) =
    .ok (.obj [(wtKey, .str ilVal), ("header".data, .str "X".data),
      ("body".data, .str "Found 2".data),
      ("items".data, .arr [.obj [("id".data, .str "1".data),
        ("payload".data, .str "1".data), ("title".data, .str "A".data),
        ("description".data, .str [])]])]) := rfl

/-- True when the value is a dict. -/
def isObj : JVal → Bool
  | .obj _ => true
  | _ => false

/-- A well-typed items/rows collection: a list of dicts. -/
def itemsOkIL : JVal → Bool
  | .arr xs => xs.all isObj
  | _ => false

/-- A well-typed section for the `interactiveList` branch. -/
def sectionOkIL (sec : JVal) : Bool :=
  match sec with
  | .obj skvs =>
    match JVal.lookup "items".data skvs with
    | none => true
    | some iv => itemsOkIL iv
  | _ => false

/-- A well-typed section for the `sections` branch. -/
def sectionOkRows (sec : JVal) : Bool :=
  match sec with
  | .obj skvs =>
    match JVal.lookup "rows".data skvs with
    | none => true
    | some rv => itemsOkIL rv
  | _ => false

/-- The `interactiveList` field, when present, has the shape the code
expects: a dict whose `list` member (when present) is a dict with
well-typed `sections`, and whose `body` member (when present) is a dict. -/
def ilFieldOk (response : JVal) : Bool :=
  match response.get "interactiveList".data with
  | none => true
  | some (.obj ikvs) =>
    (match JVal.lookup "list".data ikvs with
     | none => true
     | some (.obj lkvs) =>
       (match JVal.lookup "sections".data lkvs with
        | none => true
        | some secs =>
          match secs with
          | .arr xs => xs.all sectionOkIL
          | _ => false) &&
       (match JVal.lookup "body".data ikvs with
        | none => true
        | some b => isObj b)
     | some _ => false)
  | some _ => false

/-- The `sections` field, when present, is a list of well-typed sections. -/
def secFieldOk (response : JVal) : Bool :=
  match response.get "sections".data with
  | none => true
  | some (.arr xs) => xs.all sectionOkRows
  | some _ => false

/-- Inputs on which `normalize_interactive_list` is intended to run: not a
dict at all, or a dict tagged `interactive_list` whose nested fields have
the expected mapping/list types. -/
def wellShapedIL (response : JVal) : Bool :=
  match response with
  | .obj _ => jvalGetEq response wtKey ilVal && ilFieldOk response && secFieldOk response
  | _ => true

/-- Reduce one `Except` bind whose scrutinee is known to be `.ok`. -/
theorem bindE_ok {α β : Type} {x : Except PyErr α} {f : α → Except PyErr β}
    {a : α} {c : β} (hx : x = Except.ok a) (hf : f a = Except.ok c) :
    (x >>= f) = Except.ok c := by
  subst hx; exact hf

/-- Reduce a boolean `if` whose condition is known true. -/
theorem ite_okT {α : Type} {c : Bool} {a b : Except PyErr α} {r : α}
    (hc : c = true) (ha : a = Except.ok r) :
    (if c = true then a else b) = Except.ok r := by
  subst hc; exact ha

/-- Reduce a boolean `if` whose condition is known false. -/
theorem ite_okF {α : Type} {c : Bool} {a b : Except PyErr α} {r : α}
    (hc : c = false) (hb : b = Except.ok r) :
    (if c = true then a else b) = Except.ok r := by
  subst hc; exact hb

theorem ilItemsOfSection_ok (items : List JVal)
    (h : ∀ it ∈ items, isObj it = true) :
    ∃ r, ilItemsOfSection items = .ok r := by
  induction items with
  | nil => exact ⟨[], rfl⟩
  | cons it rest ih =>
    obtain ⟨r, hr⟩ := ih (fun x hx => h x (by simp [hx]))
    have hit : isObj it = true := h it (by simp)
    cases it with
    | obj kvs =>
      exact ⟨_, bindE_ok rfl (bindE_ok rfl (bindE_ok rfl (bindE_ok hr rfl)))⟩
    | null => exact Bool.noConfusion hit
    | bool b => exact Bool.noConfusion hit
    | num n => exact Bool.noConfusion hit
    | str s2 => exact Bool.noConfusion hit
    | arr xs => exact Bool.noConfusion hit

theorem all_mem_of_all {p : JVal → Bool} {xs : List JVal}
    (h : xs.all p = true) : ∀ x ∈ xs, p x = true := by
  intro x hx
  exact List.all_eq_true.mp h x hx

theorem ilItems_ok (secs : List JVal)
    (h : ∀ sec ∈ secs, sectionOkIL sec = true) :
    ∃ r, ilItems secs = .ok r := by
  induction secs with
  | nil => exact ⟨[], rfl⟩
  | cons sec rest ih =>
    obtain ⟨r, hr⟩ := ih (fun x hx => h x (by simp [hx]))
    have hsec : sectionOkIL sec = true := h sec (by simp)
    cases sec with
    | obj skvs =>
      have hm : (match JVal.lookup "items".data skvs with
          | none => true
          | some iv => itemsOkIL iv) = true := hsec
      have hitems : ∃ xs, (JVal.lookup "items".data skvs).getD (.arr []) = .arr xs ∧
          (∀ it ∈ xs, isObj it = true) := by
        cases hl : JVal.lookup "items".data skvs with
        | none => exact ⟨[], rfl, by simp⟩
        | some iv =>
          rw [hl] at hm
          cases iv with
          | arr xs => exact ⟨xs, rfl, all_mem_of_all hm⟩
          | null => exact Bool.noConfusion hm
          | bool b => exact Bool.noConfusion hm
          | num n => exact Bool.noConfusion hm
          | str s2 => exact Bool.noConfusion hm
          | obj kvs2 => exact Bool.noConfusion hm
      obtain ⟨xs, hxs, hall⟩ := hitems
      obtain ⟨r2, hr2⟩ := ilItemsOfSection_ok xs hall
      have hstep : pyGetD (JVal.obj skvs) "items".data (.arr []) = .ok (.arr xs) := by
        show Except.ok ((JVal.lookup "items".data skvs).getD (.arr [])) = _
        rw [hxs]
      exact ⟨_, bindE_ok hstep (bindE_ok rfl (bindE_ok hr2 (bindE_ok hr rfl)))⟩
    | null => exact Bool.noConfusion hsec
    | bool b => exact Bool.noConfusion hsec
    | num n => exact Bool.noConfusion hsec
    | str s2 => exact Bool.noConfusion hsec
    | arr xs => exact Bool.noConfusion hsec

theorem rowItemsOfSection_ok (rows : List JVal)
    (h : ∀ r ∈ rows, isObj r = true) :
    ∃ r, rowItemsOfSection rows = .ok r := by
  induction rows with
  | nil => exact ⟨[], rfl⟩
  | cons row rest ih =>
    obtain ⟨r, hr⟩ := ih (fun x hx => h x (by simp [hx]))
    have hrow : isObj row = true := h row (by simp)
    cases row with
    | obj kvs =>
      exact ⟨_, bindE_ok rfl (bindE_ok rfl (bindE_ok rfl (bindE_ok hr rfl)))⟩
    | null => exact Bool.noConfusion hrow
    | bool b => exact Bool.noConfusion hrow
    | num n => exact Bool.noConfusion hrow
    | str s2 => exact Bool.noConfusion hrow
    | arr xs => exact Bool.noConfusion hrow

theorem rowItems_ok (secs : List JVal)
    (h : ∀ sec ∈ secs, sectionOkRows sec = true) :
    ∃ r, rowItems secs = .ok r := by
  induction secs with
  | nil => exact ⟨[], rfl⟩
  | cons sec rest ih =>
    obtain ⟨r, hr⟩ := ih (fun x hx => h x (by simp [hx]))
    have hsec : sectionOkRows sec = true := h sec (by simp)
    cases sec with
    | obj skvs =>
      have hm : (match JVal.lookup "rows".data skvs with
          | none => true
          | some rv => itemsOkIL rv) = true := hsec
      have hrows : ∃ xs, (JVal.lookup "rows".data skvs).getD (.arr []) = .arr xs ∧
          (∀ it ∈ xs, isObj it = true) := by
        cases hl : JVal.lookup "rows".data skvs with
        | none => exact ⟨[], rfl, by simp⟩
        | some rv =>
          rw [hl] at hm
          cases rv with
          | arr xs => exact ⟨xs, rfl, all_mem_of_all hm⟩
          | null => exact Bool.noConfusion hm
          | bool b => exact Bool.noConfusion hm
          | num n => exact Bool.noConfusion hm
          | str s2 => exact Bool.noConfusion hm
          | obj kvs2 => exact Bool.noConfusion hm
      obtain ⟨xs, hxs, hall⟩ := hrows
      obtain ⟨r2, hr2⟩ := rowItemsOfSection_ok xs hall
      have hstep : pyGetD (JVal.obj skvs) "rows".data (.arr []) = .ok (.arr xs) := by
        show Except.ok ((JVal.lookup "rows".data skvs).getD (.arr [])) = _
        rw [hxs]
      exact ⟨_, bindE_ok hstep (bindE_ok rfl (bindE_ok hr2 (bindE_ok hr rfl)))⟩
    | null => exact Bool.noConfusion hsec
    | bool b => exact Bool.noConfusion hsec
    | num n => exact Bool.noConfusion hsec
    | str s2 => exact Bool.noConfusion hsec
    | arr xs => exact Bool.noConfusion hsec

theorem ilBranch_ok (kvs : List (List Char × JVal))
    (h : ilFieldOk (.obj kvs) = true) :
    ∃ o, ilBranch (.obj kvs) = .ok o := by
  have h2 : (match JVal.lookup "interactiveList".data kvs with
      | none => true
      | some (.obj ikvs) =>
        (match JVal.lookup "list".data ikvs with
         | none => true
         | some (.obj lkvs) =>
           (match JVal.lookup "sections".data lkvs with
            | none => true
            | some secs =>
              match secs with
              | .arr xs => xs.all sectionOkIL
              | _ => false) &&
           (match JVal.lookup "body".data ikvs with
            | none => true
            | some b => isObj b)
         | some _ => false)
      | some _ => false) = true := h
  cases hk : JVal.lookup "interactiveList".data kvs with
  | none =>
    have hkB : (JVal.obj kvs).hasKey "interactiveList".data = false := by
      show (JVal.lookup "interactiveList".data kvs).isSome = false
      rw [hk]
      rfl
    exact ⟨none, ite_okF hkB rfl⟩
  | some iv =>
    rw [hk] at h2
    have hkB : (JVal.obj kvs).hasKey "interactiveList".data = true := by
      show (JVal.lookup "interactiveList".data kvs).isSome = true
      rw [hk]
      rfl
    have hiv : ((JVal.obj kvs).get "interactiveList".data).getD JVal.null = iv := by
      show (JVal.lookup "interactiveList".data kvs).getD JVal.null = iv
      rw [hk]
      rfl
    cases iv with
    | obj ikvs =>
      have h2b : (match JVal.lookup "list".data ikvs with
          | none => true
          | some (.obj lkvs) =>
            (match JVal.lookup "sections".data lkvs with
             | none => true
             | some secs =>
               match secs with
               | .arr xs => xs.all sectionOkIL
               | _ => false) &&
            (match JVal.lookup "body".data ikvs with
             | none => true
             | some b => isObj b)
          | some _ => false) = true := h2
      cases hll : JVal.lookup "list".data ikvs with
      | none =>
        have h1f : pyIn "list".data (((JVal.obj kvs).get "interactiveList".data).getD JVal.null) =
            .ok false := by
          rw [hiv]
          show Except.ok (JVal.lookup "list".data ikvs).isSome = Except.ok false
          rw [hll]
          rfl
        exact ⟨none, ite_okT hkB (bindE_ok h1f rfl)⟩
      | some lv =>
        rw [hll] at h2b
        cases lv with
        | obj lkvs =>
          have h2c : ((match JVal.lookup "sections".data lkvs with
              | none => true
              | some secs =>
                match secs with
                | .arr xs => xs.all sectionOkIL
                | _ => false) &&
              (match JVal.lookup "body".data ikvs with
               | none => true
               | some b => isObj b)) = true := h2b
          rw [Bool.and_eq_true] at h2c
          obtain ⟨hsecs, hbody⟩ := h2c
          have h1t : pyIn "list".data (((JVal.obj kvs).get "interactiveList".data).getD JVal.null) =
              .ok true := by
            rw [hiv]
            show Except.ok (JVal.lookup "list".data ikvs).isSome = Except.ok true
            rw [hll]
            rfl
          have hidx : pyIndex (((JVal.obj kvs).get "interactiveList".data).getD JVal.null)
              "list".data = .ok (.obj lkvs) := by
            rw [hiv]
            show (match JVal.lookup "list".data ikvs with
              | some w => Except.ok w
              | none => Except.error PyErr.keyErr) = _
            rw [hll]
          have hsv : ∃ xs, (JVal.lookup "sections".data lkvs).getD (.arr []) = .arr xs ∧
              (∀ sec ∈ xs, sectionOkIL sec = true) := by
            cases hls : JVal.lookup "sections".data lkvs with
            | none => exact ⟨[], rfl, by simp⟩
            | some secs =>
              rw [hls] at hsecs
              cases secs with
              | arr xs => exact ⟨xs, rfl, all_mem_of_all hsecs⟩
              | null => exact Bool.noConfusion hsecs
              | bool b => exact Bool.noConfusion hsecs
              | num n => exact Bool.noConfusion hsecs
              | str s2 => exact Bool.noConfusion hsecs
              | obj o2 => exact Bool.noConfusion hsecs
          obtain ⟨xs, hxs, hallsec⟩ := hsv
          have hgs : pyGetD (JVal.obj lkvs) "sections".data (.arr []) = .ok (.arr xs) := by
            show Except.ok ((JVal.lookup "sections".data lkvs).getD (.arr [])) = _
            rw [hxs]
          obtain ⟨its, hits⟩ := ilItems_ok xs hallsec
          have hbo : ∃ bkvs, (JVal.lookup "body".data ikvs).getD (.obj []) = .obj bkvs := by
            cases hlb : JVal.lookup "body".data ikvs with
            | none => exact ⟨[], rfl⟩
            | some b =>
              rw [hlb] at hbody
              cases b with
              | obj bkvs => exact ⟨bkvs, rfl⟩
              | null => exact Bool.noConfusion hbody
              | bool b2 => exact Bool.noConfusion hbody
              | num n => exact Bool.noConfusion hbody
              | str s2 => exact Bool.noConfusion hbody
              | arr a2 => exact Bool.noConfusion hbody
          obtain ⟨bkvs, hbkvs⟩ := hbo
          have hgb : pyGetD (((JVal.obj kvs).get "interactiveList".data).getD JVal.null)
              "body".data (.obj []) = .ok (.obj bkvs) := by
            rw [hiv]
            show Except.ok ((JVal.lookup "body".data ikvs).getD (.obj [])) = _
            rw [hbkvs]
          exact ⟨_, ite_okT hkB (bindE_ok h1t (bindE_ok hidx (bindE_ok hgs
            (bindE_ok rfl (bindE_ok hits (bindE_ok rfl (bindE_ok hgb
            (bindE_ok rfl rfl))))))))⟩
        | null => exact Bool.noConfusion h2b
        | bool b => exact Bool.noConfusion h2b
        | num n => exact Bool.noConfusion h2b
        | str s2 => exact Bool.noConfusion h2b
        | arr a2 => exact Bool.noConfusion h2b
    | null => exact Bool.noConfusion h2
    | bool b => exact Bool.noConfusion h2
    | num n => exact Bool.noConfusion h2
    | str s2 => exact Bool.noConfusion h2
    | arr a2 => exact Bool.noConfusion h2

theorem secBranch_ok (kvs : List (List Char × JVal))
    (h : secFieldOk (.obj kvs) = true) :
    ∃ o, secBranch (.obj kvs) = .ok o := by
  have h2 : (match JVal.lookup "sections".data kvs with
      | none => true
      | some (.arr xs) => xs.all sectionOkRows
      | some _ => false) = true := h
  cases hk : JVal.lookup "sections".data kvs with
  | none =>
    have hkB : (JVal.obj kvs).hasKey "sections".data = false := by
      show (JVal.lookup "sections".data kvs).isSome = false
      rw [hk]
      rfl
    exact ⟨none, ite_okF hkB rfl⟩
  | some sv =>
    rw [hk] at h2
    have hkB : (JVal.obj kvs).hasKey "sections".data = true := by
      show (JVal.lookup "sections".data kvs).isSome = true
      rw [hk]
      rfl
    cases sv with
    | arr xs =>
      have h2b : xs.all sectionOkRows = true := h2
      obtain ⟨its, hits⟩ := rowItems_ok xs (all_mem_of_all h2b)
      have hiter : pyIter (((JVal.obj kvs).get "sections".data).getD JVal.null) = .ok xs := by
        show pyIter ((JVal.lookup "sections".data kvs).getD JVal.null) = _
        rw [hk]
        rfl
      exact ⟨_, ite_okT hkB (bindE_ok hiter (bindE_ok hits rfl))⟩
    | null => exact Bool.noConfusion h2
    | bool b => exact Bool.noConfusion h2
    | num n => exact Bool.noConfusion h2
    | str s2 => exact Bool.noConfusion h2
    | obj o2 => exact Bool.noConfusion h2

theorem normalize_interactive_list_ok (response : JVal)
    (h : wellShapedIL response = true) :
    ∃ v, normalize_interactive_list response = .ok v := by
  cases response with
  | obj kvs =>
    have h3 : (jvalGetEq (JVal.obj kvs) wtKey ilVal && ilFieldOk (JVal.obj kvs) &&
        secFieldOk (JVal.obj kvs)) = true := h
    rw [Bool.and_eq_true, Bool.and_eq_true] at h3
    obtain ⟨⟨htag, hil⟩, hsec⟩ := h3
    cases hflat : hasFlatKeys (JVal.obj kvs) with
    | true =>
      exact ⟨JVal.obj kvs, ite_okT htag (ite_okT hflat rfl)⟩
    | false =>
      obtain ⟨o1, ho1⟩ := ilBranch_ok kvs hil
      cases o1 with
      | some v => exact ⟨v, ite_okT htag (ite_okF hflat (bindE_ok ho1 rfl))⟩
      | none =>
        obtain ⟨o2, ho2⟩ := secBranch_ok kvs hsec
        cases o2 with
        | some v =>
          exact ⟨v, ite_okT htag (ite_okF hflat (bindE_ok ho1 (bindE_ok ho2 rfl)))⟩
        | none =>
          exact ⟨_, ite_okT htag (ite_okF hflat (bindE_ok ho1 (bindE_ok ho2 rfl)))⟩
  | null => exact ⟨_, rfl⟩
  | bool b => exact ⟨_, rfl⟩
  | num n => exact ⟨_, rfl⟩
  | str s2 => exact ⟨_, rfl⟩
  | arr xs => exact ⟨_, rfl⟩

theorem normalize_button_template_total (response : JVal) :
    ∃ v, normalize_button_template response = .ok v := by
  cases response with
  | obj kvs =>
    cases htag : jvalGetEq (JVal.obj kvs) wtKey "buttonTemplate".data with
    | true => exact ⟨_, ite_okT htag rfl⟩
    | false => exact ⟨JVal.obj kvs, ite_okF htag rfl⟩
  | null => exact ⟨_, rfl⟩
  | bool b => exact ⟨_, rfl⟩
  | num n => exact ⟨_, rfl⟩
  | str s2 => exact ⟨_, rfl⟩
  | arr xs => exact ⟨_, rfl⟩

/-! ## `MessageDeduplicator` (`main.py`, lines 166-188).

`processed_ids` is an `OrderedDict` message-id → insertion time, modelled
as an association list in insertion order (front = oldest). -/

structure MessageDeduplicator where
  processed_ids : List (List Char × Int)
  max_size : Nat
  ttl : Int

/-- The eviction loop (lines 177-179): `while processed_ids and
current_time - first_value > ttl: popitem(last=False)`. -/
def evictExpired (current ttl : Int) : List (List Char × Int) → List (List Char × Int)
  | [] => []
  | (k, t) :: rest =>
    if ttl < current - t then evictExpired current ttl rest else (k, t) :: rest

/-- The trim loop (lines 186-187): `while len(processed_ids) > max_size:
popitem(last=False)`. -/
def trimFront (max_size : Nat) : List (List Char × Int) → List (List Char × Int)
  | [] => []
  | (k, t) :: rest =>
    if max_size < ((k, t) :: rest).length then trimFront max_size rest
    else (k, t) :: rest

/-- Model of `MessageDeduplicator.is_duplicate` (lines 172-188): evict
expired entries from the front, report membership, otherwise record the id
at the current time and trim from the front past `max_size`. -/
def is_duplicate (d : MessageDeduplicator) (current : Int) (message_id : List Char) :
    Bool × MessageDeduplicator :=
  let cleaned := evictExpired current d.ttl d.processed_ids
  if (cleaned.lookup message_id).isSome then
    (true, { d with processed_ids := cleaned })
  else
    (false, { d with processed_ids := trimFront d.max_size (cleaned ++ [(message_id, current)]) })

/-- Entry timestamps never decrease along the insertion order; every state
reachable from an empty deduplicator under a monotone clock satisfies it. -/
def timesMono : List (List Char × Int) → Prop :=
  List.Chain' (fun p q => p.2 ≤ q.2)

/-! ## The tool dispatcher (`openai_agent.py`, lines 427-463). -/

/-- `tool_func_map` (lines 441-444) as a key-membership test. -/
def toolFuncMapHas (tool_code : List Char) : Bool :=
  tool_code = "search_products_with_handoff".data ||
  tool_code = "search_one_product_with_handoff".data

/-- Model of the tool-plan execution (lines 432-463).  `callResult` is the
outcome of `fully_parse_json(tool_func(**tool_args))`: `.error` when the
underlying callable raised (the `except Exception` arm), `.ok` otherwise. -/
def dispatchToolPlan (tool_code : List Char) (callResult : Except PyErr JVal) : JVal :=
  if toolFuncMapHas tool_code then
    match callResult with
    | .ok v => v
    | .error _ =>
      .obj [(wtKey, .str "text".data),
        ("message".data,
         .str ("Sorry, there was an error running the tool: ".data ++ tool_code ++ ".".data))]
  else
    .obj [(wtKey, .str "text".data),
      ("message".data, .str "Sorry, I couldn't process your request (unknown tool).".data)]

theorem evictExpired_sublist (current ttl : Int) (l : List (List Char × Int)) :
    ∃ k, evictExpired current ttl l = l.drop k := by
  induction l with
  | nil => exact ⟨0, rfl⟩
  | cons p rest ih =>
    obtain ⟨k, hk⟩ := ih
    obtain ⟨a, b⟩ := p
    by_cases h : ttl < current - b
    · rw [evictExpired, if_pos h]
      exact ⟨k + 1, hk⟩
    · rw [evictExpired, if_neg h]
      exact ⟨0, rfl⟩

theorem timesMono_drop (l : List (List Char × Int)) (k : Nat) (h : timesMono l) :
    timesMono (l.drop k) := by
  induction k generalizing l with
  | zero => exact h
  | succ k2 ih =>
    cases l with
    | nil => exact List.chain'_nil
    | cons p rest => exact ih rest (List.Chain'.tail h)

theorem evictExpired_keeps (current ttl t : Int) (X : List Char)
    (l : List (List Char × Int)) (hmono : timesMono l)
    (hmem : (X, t) ∈ l) (hfresh : current - t ≤ ttl) :
    (X, t) ∈ evictExpired current ttl l := by
  induction l with
  | nil => cases hmem
  | cons p rest ih =>
    obtain ⟨a, b⟩ := p
    by_cases h : ttl < current - b
    · rw [evictExpired, if_pos h]
      cases List.mem_cons.mp hmem with
      | inl he =>
        exfalso
        have hbt : t = b := congrArg Prod.snd he
        omega
      | inr hm => exact ih (List.Chain'.tail hmono) hm
    · rw [evictExpired, if_neg h]
      exact hmem

theorem lookup_isSome_of_mem (X : List Char) (t : Int)
    (l : List (List Char × Int)) (h : (X, t) ∈ l) :
    (l.lookup X).isSome = true := by
  induction l with
  | nil => cases h
  | cons p rest ih =>
    obtain ⟨a, b⟩ := p
    rw [List.lookup]
    cases hbe : X == a with
    | true => simp [hbe]
    | false =>
      cases List.mem_cons.mp h with
      | inl heq =>
        have hx : X = a := congrArg Prod.fst heq
        rw [hx] at hbe
        simp at hbe
      | inr hm => exact ih hm

theorem trimFront_le (max_size : Nat) (l : List (List Char × Int)) :
    (trimFront max_size l).length ≤ max_size := by
  induction l with
  | nil => simp [trimFront]
  | cons p rest ih =>
    obtain ⟨a, b⟩ := p
    by_cases h : max_size < ((a, b) :: rest).length
    · rw [trimFront, if_pos h]
      exact ih
    · rw [trimFront, if_neg h]
      omega

/-! ## `search_database_func`, action `"search"` (`tools.py`, lines 165-230)
and `search_products_with_handoff_func` (`handoff_tools.py`, lines 92-170). -/

/-- Python truthiness of a JSON-like value. -/
def pyTruthy : JVal → Bool
  | .null => false
  | .bool b => b
  | .num n => n != 0
  | .str s => !s.isEmpty
  | .arr xs => !xs.isEmpty
  | .obj kvs => !kvs.isEmpty

/-- Four lowercase hex digits of a value below 65536. -/
def hexQuad4 (n : Nat) : List Char :=
  [hexDig (n / 4096 % 16), hexDig (n / 256 % 16), hexDig (n / 16 % 16), hexDig (n % 16)]

/-- `json.dumps` escaping of one character (`ensure_ascii=True` default):
the two-character escapes of ESCAPE_DCT, `\uXXXX` for other controls and
for all non-ASCII, surrogate pairs above the BMP. -/
def pyEscChar (c : Char) : List Char :=
  if c = '"' then ['\\', '"']
  else if c = '\\' then ['\\', '\\']
  else if c = '\n' then ['\\', 'n']
  else if c = '\t' then ['\\', 't']
  else if c = '\r' then ['\\', 'r']
  else if c.toNat = 8 then ['\\', 'b']
  else if c.toNat = 12 then ['\\', 'f']
  else if c.toNat < 32 then '\\' :: 'u' :: hexQuad4 c.toNat
  else if c.toNat < 127 then [c]
  else if c.toNat < 65536 then '\\' :: 'u' :: hexQuad4 c.toNat
  else
    ('\\' :: 'u' :: hexQuad4 (55296 + (c.toNat - 65536) / 1024)) ++
    ('\\' :: 'u' :: hexQuad4 (56320 + (c.toNat - 65536) % 1024))

/-- `json.dumps` of a string. -/
def pyDumpsStr (s : List Char) : List Char :=
  '"' :: (s.map pyEscChar).join ++ ['"']

mutual

/-- `json.dumps` with the default separators `", "` and `": "`. -/
def pyDumps : JVal → List Char
  | .null => "null".data
  | .bool true => "true".data
  | .bool false => "false".data
  | .num n => intChars n
  | .str s => pyDumpsStr s
  | .arr xs => '[' :: pyDumpsElems xs ++ [']']
  | .obj kvs => '\x7b' :: pyDumpsFields kvs ++ ['\x7d']

def pyDumpsElems : List JVal → List Char
  | [] => []
  | [x] => pyDumps x
  | x :: y :: xs => pyDumps x ++ ',' :: ' ' :: pyDumpsElems (y :: xs)

def pyDumpsFields : List (List Char × JVal) → List Char
  | [] => []
  | [(k, v)] => pyDumpsStr k ++ ':' :: ' ' :: pyDumps v
  | (k, v) :: kv :: kvs =>
    pyDumpsStr k ++ ':' :: ' ' :: pyDumps v ++ ',' :: ' ' :: pyDumpsFields (kv :: kvs)

end

/-- A product as formatted by `ProductDatabase._format_for_whatsapp`
(`tools.py`, lines 135-146); the `raw_data` key (the unformatted source
dict) is omitted, no modelled consumer reads it. -/
structure FProduct where
  id : List Char
  title : List Char
  description : List Char
  price : List Char
  image_url : List Char
  url : List Char
  product_type : List Char
  tags : List Char
  handle : List Char

/-- The formatted product as the JSON value embedded under `"products"`. -/
def fprodJ (p : FProduct) : JVal :=
  .obj [("id".data, .str p.id), ("title".data, .str p.title),
    ("description".data, .str p.description), ("price".data, .str p.price),
    ("image_url".data, .str p.image_url), ("url".data, .str p.url),
    ("product_type".data, .str p.product_type), ("tags".data, .str p.tags),
    ("handle".data, .str p.handle)]

/-- The interactive-list items of the multi-product branch (lines 203-210):
`products[:10]`, title cut to 20, `"price - product_type"` description,
`view_id` payload. -/
def searchItems (products : List FProduct) : List JVal :=
  (products.take 10).map (fun p =>
    .obj [("title".data,
            .str (if 20 < p.title.length then p.title.take 20 else p.title)),
          ("description".data, .str (p.price ++ " - ".data ++ p.product_type)),
          ("payload".data, .str ("view_".data ++ p.id))])

/-- The non-empty-query arm of `search_database_func`, action `"search"`
(`tools.py`, lines 175-230), from the catalog query results onward
(`products` stands for `ProductDatabase.search_products(query, limit)`). -/
def searchActionFound (query : List Char) (products : List FProduct) : JVal :=
  match products with
    | [] =>
      .obj [("success".data, .bool true),
        ("message".data, .str ("No products found matching '".data ++ query ++
          "'. Try different keywords or browse all products.".data)),
        ("products".data, .arr []), ("count".data, .num 0),
        ("suggestions".data, .arr [.str "electronics".data, .str "clothing".data,
          .str "accessories".data, .str "home".data, .str "gaming".data]),
        ("handoff_required".data, .bool false)]
    | [p] =>
      .obj [("success".data, .bool true),
        ("message".data, .str ("Found 1 products matching '".data ++ query ++ "'".data)),
        ("products".data, .arr [fprodJ p]), ("count".data, .num 1),
        ("template".data, .obj [("template_id".data, .str "zoko_upsell_product_01".data),
          ("template_args".data, .arr [.str p.image_url, .str p.title,
            .str ("PROD-".data ++ p.id), .str "view_details_payload".data])]),
        (wtKey, .str "buttonTemplate".data),
        ("handoff_required".data, .bool false)]
    | p :: q :: rest =>
      .obj [("success".data, .bool true),
        ("message".data, .str ("Found ".data ++ intChars (p :: q :: rest).length ++
          " products matching '".data ++ query ++ "'".data)),
        ("products".data, .arr ((p :: q :: rest).map fprodJ)),
        ("count".data, .num (p :: q :: rest).length),
        ("template".data, .obj [("template_id".data, .str "property_list_interactive".data),
          ("template_args".data, .arr [.str "Available Products".data,
            .str ("Found ".data ++ intChars (p :: q :: rest).length ++
              " products matching '".data ++ query ++ "'".data),
            .str (pyDumps (.arr (searchItems (p :: q :: rest))))])]),
        (wtKey, .str "interactive_list".data),
        ("handoff_required".data, .bool false)]

/-- Model of `search_database_func` for `action == "search"`: the empty
query guard, then the count dispatch of `searchActionFound`. -/
def searchActionResult (query : List Char) (products : List FProduct) : JVal :=
  if pyStrip query = [] then
    .obj [("success".data, .bool false),
      ("message".data, .str "Please provide a search query".data),
      ("products".data, .arr []), ("count".data, .num 0),
      ("handoff_required".data, .bool false)]
  else searchActionFound query products

def placeholderImg : List Char :=
  "https://via.placeholder.com/400x300?text=Product".data

/-- One entry of `product_cards` (`handoff_tools.py`, lines 120-141);
`template_id` is the id picked from `zoko_utils.get_template_suggestions`. -/
def productCardOf (template_id : List Char) (p : JVal) : JVal :=
  .obj [("template_id".data, .str template_id),
    ("template_args".data, .arr [
      (p.get "image_url".data).getD (.str placeholderImg),
      (p.get "title".data).getD (.str "Product".data),
      .str ("PROD-".data ++ pyStr ((p.get "id".data).getD (.str "unknown".data))),
      .str ("view_details_".data ++ pyStr ((p.get "id".data).getD (.str "unknown".data)))]),
    ("product".data, p)]

def handoffInfoJ : JVal :=
  .obj [("from_agent".data, .str "main_agent".data),
    ("to_agent".data, .str "database_agent".data),
    ("reason".data, .str "product search".data),
    ("timestamp".data, .str "2025-01-28T00:00:00Z".data)]

/-- The `else` arm of lines 142-144: overwrite message and type to text. -/
def handoffTextArm (query : List Char) (result0 : JVal) : JVal :=
  match result0 with
  | .obj kvs =>
    .obj (setKey (setKey kvs "message".data
      (.str ("Sorry, I couldn't find any products matching '".data ++ query ++
        "'. Try searching for something else!".data))) wtKey (.str "text".data))
  | v => v

/-- Model of `search_products_with_handoff_func` (`handoff_tools.py`, lines
92-170): run the database search, and when any products came back, attach
`product_cards` and overwrite `whatsapp_type` to `buttonTemplate`
(discarding the search result's own `interactive_list`/`buttonTemplate`
choice); with no products overwrite to `text`.  In this composition
`result0["products"]` is always a JSON array of dicts. -/
def handoffWith (query template_id : List Char) (result0 : JVal) : JVal :=
  let result1 : JVal :=
    match result0.get "products".data with
    | some pv =>
      if pyTruthy pv then
        let xs : List JVal := match pv with | .arr xs2 => xs2 | _ => []
        match result0 with
        | .obj kvs =>
          .obj (setKey (setKey (setKey kvs "product_cards".data
            (.arr (xs.map (productCardOf template_id)))) wtKey
            (.str "buttonTemplate".data)) "message".data
            (.str ("Found ".data ++ intChars xs.length ++
              " products matching '".data ++ query ++ "'.".data)))
        | v => v
      else handoffTextArm query result0
    | none => handoffTextArm query result0
  match result1 with
  | .obj kvs => .obj (setKey kvs "handoff_info".data handoffInfoJ)
  | v => v

/-- Model of `search_products_with_handoff_func`: the database search
composed with the overwrite step. -/
def search_products_with_handoff_func (query : List Char) (products : List FProduct)
    (template_id : List Char) : JVal :=
  handoffWith query template_id (searchActionResult query products)

/-! ## `ProductLoader` (`product_loader.py`).

A catalog row as produced by `pd.DataFrame(data).fillna('')` restricted to
the columns the search path reads: `Title`, `Variant Price`, `Body (HTML)`,
`Image Src`, `Handle` (all strings, missing = `''`).  The embedding model
and translator are external; cosine scores and the translation function are
parameters. -/

structure Row where
  Title : List Char
  VariantPrice : List Char
  BodyHTML : List Char
  ImageSrc : List Char
  Handle : List Char

/-- The localized product dict: the row's columns plus the keys
`_localize_product` assigns. -/
structure Product where
  row : Row
  name : List Char
  id : List Char
  price : Option (List Char)
  description : List Char
  image_url : List Char
  url : List Char

def unsplashImg : List Char :=
  "https://images.unsplash.com/photo-1564013799919-ab600027ffc6?w=400".data

/-- Model of `ProductLoader._localize_product` (lines 109-153).  `fmtPrice`
abstracts lines 112-124 (float parse + per-language formatting; `none` when
`float(price)` raises); `translate` abstracts the GoogleTranslator call of
lines 125-131 (its `except` arm keeps the original text, so any total
function covers it). -/
def localize_product (row : Row) (lang : List Char)
    (fmtPrice : List Char → Option (List Char))
    (translate : List Char → List Char) : Product :=
  let price := if row.VariantPrice.isEmpty then none else fmtPrice row.VariantPrice
  let desc0 := row.BodyHTML
  let desc1 := if !desc0.isEmpty && lang != "en".data then translate desc0 else desc0
  let name := row.Title
  let image_url := if row.ImageSrc.isEmpty then unsplashImg else row.ImageSrc
  let description :=
    if desc1.isEmpty then
      "Order ".data ++ (if name.isEmpty then "Product".data else name)
    else desc1
  let url :=
    if row.Handle.isEmpty then "https://www.theleva.com/".data
    else "https://www.theleva.com/products/".data ++ row.Handle
  { row := row, name := name, id := row.Handle, price := price,
    description := description, image_url := image_url, url := url }

/-- Model of `ProductLoader.is_complete_product` (lines 22-28) on a
localized product: the dict holds both the row columns and the localized
keys, `image`, `body_html`, `handle` are absent. -/
def is_complete_product (p : Product) : Bool :=
  (!p.image_url.isEmpty || !p.row.ImageSrc.isEmpty) &&
  (!p.description.isEmpty || !p.row.BodyHTML.isEmpty) &&
  (!p.url.isEmpty || !p.row.Handle.isEmpty || !p.id.isEmpty)

/-- `np.argsort(-cos_scores)`: the row indices ordered by descending
score. -/
def argsortDesc (scores : List Int) : List Nat :=
  List.insertionSort (fun i j => scores.getD j 0 ≤ scores.getD i 0)
    (List.range scores.length)

/-- The semantic collection loop (lines 88-94): localize each candidate
index, keep the complete ones, stop once `max_results` are collected. -/
def searchSemLoop (rows : List Row) (loc : Row → Product) (max_results : Nat) :
    List Nat → List Product → List Product
  | [], results => results
  | idx :: rest, results =>
    let prod := loc (rows.getD idx ⟨[], [], [], [], []⟩)
    let results2 := if is_complete_product prod then results ++ [prod] else results
    if max_results ≤ results2.length then results2
    else searchSemLoop rows loc max_results rest results2

/-- Python `str.lower()` (ASCII model). -/
def pyLower (s : List Char) : List Char :=
  s.map Char.toLower

def splitWsAux : List Char → List Char → List (List Char)
  | [], cur => if cur.isEmpty then [] else [cur.reverse]
  | c :: rest, cur =>
    if isPyWs c then
      if cur.isEmpty then splitWsAux rest [] else cur.reverse :: splitWsAux rest []
    else splitWsAux rest (c :: cur)

/-- Python `str.split()` with no separator: split on whitespace runs,
dropping empty pieces. -/
def pySplitWs (s : List Char) : List (List Char) :=
  splitWsAux s []

/-- `matchPartialTitle` (lines 100-102): every query word occurs in the
lowercased title (`'name'` is not a catalog column, so its `get` arm
yields `''`). -/
def matchPartialTitle (query_words : List (List Char)) (row : Row) : Bool :=
  query_words.all (fun w => containsSub w (pyLower row.Title))

/-- Model of `ProductLoader.search` (lines 77-107): guard on an empty
catalog, walk `argsort(-scores)[:max_results*2]` collecting localized
complete products, and only when that yields nothing fall back to the
partial title match.  The local `threshold = 0.3` of line 96 binds a name
that is never read, so scores influence candidate order only. -/
def ProductLoader.search (rows : List Row) (scores : List Int) (lang : List Char)
    (fmtPrice : List Char → Option (List Char)) (translate : List Char → List Char)
    (query : List Char) (max_results : Nat) : List Product :=
  if rows.isEmpty then []
  else
    let q := pyStrip query
    let top_idx := (argsortDesc scores).take (max_results * 2)
    let loc := fun r => localize_product r lang fmtPrice translate
    let results := searchSemLoop rows loc max_results top_idx []
    if results.isEmpty then
      let query_words := pySplitWs (pyLower q)
      let fuzzy := (rows.filter (matchPartialTitle query_words)).map loc
      (fuzzy.filter is_complete_product).take max_results
    else results

/-! ## The selected-product variants cap (`main.py`, lines 391-425). -/

/-- `re.match(r"^([A-Za-z]+\s*\d+)", name)`: the stripped first group when
the pattern matches, else the whole name. -/
def baseNameOf (name : List Char) : List Char :=
  let letters := name.takeWhile Char.isAlpha
  if letters.isEmpty then name
  else
    let rest1 := name.drop letters.length
    let sp := rest1.takeWhile isPyWs
    let digs := (rest1.drop sp.length).takeWhile Char.isDigit
    if digs.isEmpty then name else letters ++ sp ++ digs

/-- Model of the variant selection (lines 396-414): filter the base-name
search results, cap at 3, and when none remain cap the related-product
search at 3 instead.  `searchBase` and `searchName` stand for the two
`product_loader.search(..., max_results=10)` calls. -/
def selectedVariants (selected : Product) (searchBase searchName : List Product) :
    List Product :=
  let base_name := baseNameOf selected.name
  let all_variants := searchBase.filter
    (fun p => p.id != selected.id && base_name.isPrefixOf p.name)
  let variants := (all_variants.filter (fun v => v.name != selected.name)).take 3
  if variants.isEmpty then
    (searchName.filter (fun p => p.id != selected.id)).take 3
  else variants

/-! ## `zoko_utils.create_product_list_message` (lines 216-258) and the two
interactive-list delivery branches of `process_zoko_message` (`main.py`,
lines 471-505 and 517-535). -/

/-- Remainder after the first `>` of a tag for the regex `<[^<]+?>`: at
least one character that is neither `<` nor `>` must precede the `>`; a
second `<` before any `>` means no match at this position. -/
def findTagEnd2 : List Char → Option (List Char)
  | [] => none
  | c :: rest =>
    if c = '>' ∨ c = '<' then none
    else tagScan2 rest
where
  tagScan2 : List Char → Option (List Char)
    | [] => none
    | c :: rest =>
      if c = '>' then some rest
      else if c = '<' then none
      else tagScan2 rest

/-- Fuelled worker for `re.sub('<[^<]+?>', '', desc)`. -/
def stripHtml2F : Nat → List Char → List Char
  | 0, l => l
  | _, [] => []
  | fuel + 1, c :: rest =>
    if c = '<' then
      match findTagEnd2 rest with
      | some rest2 => stripHtml2F fuel rest2
      | none => c :: stripHtml2F fuel rest
    else c :: stripHtml2F fuel rest

/-- Model of `re.sub('<[^<]+?>', '', desc)` (`zoko_utils.py`, line 233). -/
def stripHtml2 (l : List Char) : List Char :=
  stripHtml2F l.length l

/-- Python `sep.join(parts)`. -/
def joinSep (sep : List Char) : List (List Char) → List Char
  | [] => []
  | [x] => x
  | x :: y :: rest => x ++ sep ++ joinSep sep (y :: rest)

/-- A product dict as read by `create_product_list_message`: the values of
its `get` calls (`ptype` is the `'type'` key; an absent `title` reads as
`"Product"`, an absent `price` as `"N/A"`, an absent `id` as
`"unknown"`). -/
structure ZProd where
  ptype : List Char
  category : List Char
  vendor : List Char
  price : List Char
  description : List Char
  title : List Char
  id : List Char

/-- One interactive-list item of `create_product_list_message`
(lines 225-247): summary parts joined by `" | "`, title cut to 24,
description cut to 72 (and possibly empty). -/
def zitemOf (prod : ZProd) : JVal :=
  let desc := stripHtml2 prod.description
  let part1 :=
    if !prod.ptype.isEmpty || !prod.category.isEmpty then
      [pyStrip (prod.ptype ++ " ".data ++ prod.category)]
    else []
  let part2 := if !prod.vendor.isEmpty then ["Brand: ".data ++ prod.vendor] else []
  let part3 :=
    if !prod.price.isEmpty && prod.price != "N/A".data then
      ["Price: ".data ++ prod.price]
    else []
  let part4 := if !desc.isEmpty then [desc.take 40] else []
  let summary := joinSep " | ".data
    ((part1 ++ part2 ++ part3 ++ part4).filter (fun p => !p.isEmpty))
  .obj [("title".data, .str (prod.title.take 24)),
    ("description".data, .str (summary.take 72)),
    ("payload".data, .str ("product_".data ++ prod.id))]

/-- Model of `zoko_utils.create_product_list_message` (lines 216-258). -/
def create_product_list_message (products : List ZProd) : JVal :=
  match products with
  | [] =>
    .obj [(wtKey, .str "text".data),
      ("message".data,
       .str "No products found matching your criteria. Please try a different search.".data)]
  | _ =>
    .obj [(wtKey, .str "interactive_list".data),
      ("template".data, .obj [("template_args".data, .arr [
        .str "Available Products".data,
        .str ("Found ".data ++ intChars products.length ++
          " products matching your criteria:".data),
        .str (pyDumps (.arr ((products.take 10).map zitemOf)))])])]

/-- Python `len(v)`: defined on strings, lists and dicts. -/
def pyLen : JVal → Except PyErr Int
  | .str s => .ok s.length
  | .arr xs => .ok xs.length
  | .obj kvs => .ok kvs.length
  | _ => .error .typeErr

/-- Python slicing `v[:n]`: strings and lists only. -/
def pySliceJ (v : JVal) (n : Nat) : Except PyErr JVal :=
  match v with
  | .str s2 => .ok (.str (s2.take n))
  | .arr xs => .ok (.arr (xs.take n))
  | _ => .error .typeErr

/-- The value as a string, `TypeError` otherwise (for `str + str`). -/
def asStrE : JVal → Except PyErr (List Char)
  | .str s => .ok s
  | _ => .error .typeErr

/-- One item of the nested interactive-list delivery branch (`main.py`,
lines 523-531): description cut to `47 + '...'` past 50 characters and
defaulted to `'No description available'` when falsy; title sliced to 24
without `str()` coercion; payload stringified. -/
def deliveryItemOf (item : JVal) : Except PyErr JVal := do
  let descV ← pyGetD item "description".data (.str [])
  let descT ←
    if pyTruthy descV then do
      let l ← pyLen descV
      if 50 < l then do
        let ds ← asStrE descV
        pure (JVal.str (ds.take 47 ++ "...".data))
      else pure descV
    else pure descV
  let descF := if pyTruthy descT then descT else JVal.str "No description available".data
  let payloadV ← pyGetD item "payload".data (.str [])
  let titleV ← pyGetD item "title".data (.str [])
  let titleT ← pySliceJ titleV 24
  pure (.obj [("payload".data, .str (pyStr payloadV)), ("title".data, titleT),
    ("description".data, descF)])

def deliveryItemsOfSection (items : List JVal) : Except PyErr (List JVal) :=
  match items with
  | [] => .ok []
  | it :: rest => do
    let built ← deliveryItemOf it
    let more ← deliveryItemsOfSection rest
    .ok (built :: more)

/-- The section walk of lines 521-531 followed by the emptiness filter of
line 532: `[item for item in items if item['title'] and item['payload']]`. -/
def deliveryNestedItems (sections : List JVal) : Except PyErr (List JVal) :=
  match sections with
  | [] => .ok []
  | sec :: rest => do
    let itemsV ← pyGetD sec "items".data (.arr [])
    let its ← pyIter itemsV
    let built ← deliveryItemsOfSection its
    let more ← deliveryNestedItems rest
    .ok (built ++ more)

/-- The filter of line 532 on the built items (their keys are fixed). -/
def deliveryFiltered (items : List JVal) : List JVal :=
  items.filter (fun it =>
    pyTruthy ((it.get "title".data).getD .null) &&
    pyTruthy ((it.get "payload".data).getD .null))

/-- What the delivery step hands to the channel client. -/
inductive Sent
  | interactiveList (listTitle : List Char) (body : List Char)
      (items : List JVal) (sectionTitle footer : List Char)
  | interactiveListBasic (listTitle body : JVal) (items : List JVal)
  | text (msg : List Char)

/-- The item filter of the flat interactive-list branch (`main.py`, lines
474-487): stringify and truncate payload/title/description to 200/24/72,
drop empty payloads or titles and payloads already seen. -/
def flatItemsLoop : List JVal → List (List Char) → Except PyErr (List JVal)
  | [], _ => .ok []
  | item :: rest, seen => do
    let pv ← pyGetD item "payload".data (.str [])
    let tv ← pyGetD item "title".data (.str [])
    let dv ← pyGetD item "description".data (.str [])
    let payload := (pyStr pv).take 200
    let title := (pyStr tv).take 24
    let descr := (pyStr dv).take 72
    if payload.isEmpty || title.isEmpty || seen.contains payload then
      flatItemsLoop rest seen
    else do
      let more ← flatItemsLoop rest (payload :: seen)
      .ok (.obj [("title".data, .str title), ("description".data, .str descr),
        ("payload".data, .str payload)] :: more)

/-- Model of the flat interactive-list delivery branch (`main.py`, lines
471-505), reached when the response dict is tagged `interactive_list` and
has the `header`/`body`/`items` keys: filter the items, then either send
the interactive list (header cut to 24, body to 72, fixed footer) or the
no-products text when every item dropped. -/
def flatBranchSend (response : JVal) : Except PyErr Sent := do
  let itemsV ← pyIndex response "items".data
  let its ← pyIter itemsV
  let items ← flatItemsLoop its []
  if items.isEmpty then
    pure (Sent.text "Sorry, no products found.".data)
  else
    let headerV := (response.get "header".data).getD .null
    let section_title :=
      if pyTruthy headerV then (pyStr headerV).take 24 else "LEVA Houses".data
    let bodyV := (response.get "body".data).getD .null
    let body :=
      if pyTruthy bodyV then (pyStr bodyV).take 72 else "Choose an option:".data
    pure (Sent.interactiveList section_title body items section_title
      "Powered by Zoko".data)

/-- Model of the nested interactive-list delivery branch (`main.py`, lines
516-535), reached when the response dict is tagged `interactive_list` but
lacks the flat keys: `none` when `interactiveList`/`list` are absent (the
code falls through to its product-query fallback); no payload
deduplication, and the list is sent even when every item was filtered
out. -/
def nestedBranchSend (response : JVal) : Except PyErr (Option Sent) := do
  let interactive := (response.get "interactiveList".data).getD .null
  if pyTruthy interactive then do
    let hasList ← pyIn "list".data interactive
    if hasList then do
      let listObj ← pyIndex interactive "list".data
      let bodyOuter ← pyGetD interactive "body".data (.obj [])
      let bodyV ← pyGetD bodyOuter "text".data (.str "Choose an option:".data)
      let sectionsV ← pyGetD listObj "sections".data (.arr [])
      let secs ← pyIter sectionsV
      let items ← deliveryNestedItems secs
      let filtered := deliveryFiltered items
      let titleV ← pyGetD listObj "title".data (.str "LEVA Houses".data)
      pure (some (Sent.interactiveListBasic titleV bodyV filtered))
    else pure none
  else pure none

/-- The `payload` field of a built item (a string on every built item). -/
def payloadOf (it : JVal) : List Char :=
  match it.get "payload".data with
  | some (.str p) => p
  | _ => []

/-- The `title` field of a built item. -/
def titleOf (it : JVal) : List Char :=
  match it.get "title".data with
  | some (.str t) => t
  | _ => []

/-- Invert an `Except` bind that produced `.ok`. -/
theorem bindE_eq_ok {α β : Type} {x : Except PyErr α} {f : α → Except PyErr β}
    {c : β} (h : (x >>= f) = Except.ok c) :
    ∃ a, x = Except.ok a ∧ f a = Except.ok c := by
  cases x with
  | ok a => exact ⟨a, rfl, h⟩
  | error e => exact Except.noConfusion (show Except.error e = Except.ok c from h)

theorem lookup_setKey_same (kvs : List (List Char × JVal)) (k : List Char) (v : JVal) :
    JVal.lookup k (setKey kvs k v) = some v := by
  induction kvs with
  | nil => simp [setKey, JVal.lookup]
  | cons p rest ih =>
    obtain ⟨k2, v2⟩ := p
    by_cases h : k2 = k
    · rw [setKey, if_pos h, JVal.lookup, if_pos rfl]
    · rw [setKey, if_neg h, JVal.lookup, if_neg h]
      exact ih

theorem lookup_setKey_other (kvs : List (List Char × JVal)) (k k2 : List Char)
    (v : JVal) (h : k2 ≠ k) :
    JVal.lookup k2 (setKey kvs k v) = JVal.lookup k2 kvs := by
  induction kvs with
  | nil =>
    rw [setKey, JVal.lookup, JVal.lookup, if_neg (fun he => h he.symm), JVal.lookup]
  | cons p rest ih =>
    obtain ⟨k3, v3⟩ := p
    by_cases he : k3 = k
    · rw [setKey, if_pos he, JVal.lookup, JVal.lookup,
        if_neg (fun hx => h hx.symm),
        if_neg (fun hx => h (he ▸ hx).symm)]
    · rw [setKey, if_neg he, JVal.lookup, JVal.lookup]
      by_cases hx : k3 = k2
      · rw [if_pos hx, if_pos hx]
      · rw [if_neg hx, if_neg hx]
        exact ih

theorem searchActionResult_found (query : List Char) (products : List FProduct)
    (hq : ¬ pyStrip query = []) :
    searchActionResult query products = searchActionFound query products := by
  unfold searchActionResult
  rw [if_neg hq]

theorem searchActionFound_nil_no_type (query : List Char) :
    (searchActionFound query []).get wtKey = none := rfl

theorem searchActionFound_single (query : List Char) (p : FProduct) :
    jvalGetEq (searchActionFound query [p]) wtKey "buttonTemplate".data = true := rfl

theorem searchActionFound_multi (query : List Char) (p q2 : FProduct)
    (rest : List FProduct) :
    jvalGetEq (searchActionFound query (p :: q2 :: rest)) wtKey ilVal = true := rfl

theorem searchItems_le_ten (products : List FProduct) :
    (searchItems products).length ≤ 10 := by
  rw [searchItems, List.length_map, List.length_take]
  exact min_le_left _ _

theorem handoffWith_nonempty (query tid : List Char) (p : FProduct)
    (rest : List FProduct) :
    jvalGetEq (handoffWith query tid (searchActionFound query (p :: rest))) wtKey
      "buttonTemplate".data = true := by
  cases rest with
  | nil => rfl
  | cons q2 rest2 => rfl

theorem handoffWith_empty (query tid : List Char) :
    jvalGetEq (handoffWith query tid (searchActionFound query [])) wtKey
      "text".data = true := rfl

theorem selectedVariants_le_three (selected : Product)
    (searchBase searchName : List Product) :
    (selectedVariants selected searchBase searchName).length ≤ 3 := by
  rw [selectedVariants]
  by_cases h : (((searchBase.filter (fun p =>
      p.id != selected.id && (baseNameOf selected.name).isPrefixOf p.name)).filter
      (fun v => v.name != selected.name)).take 3).isEmpty
  · rw [if_pos h, List.length_take]
    exact min_le_left _ _
  · rw [if_neg h, List.length_take]
    exact min_le_left _ _

/-- C2 (amended): `search_database_func`'s `"search"` action maps result
counts to variants — no `whatsapp_type` at count 0, `buttonTemplate` at
count 1, `interactive_list` at count ≥ 2 with its items capped at 10 — and
the selected-product flow sends at most 3 variant button templates; but
`search_products_with_handoff_func`, which wraps the search for the tool
dispatcher, overwrites the type to `buttonTemplate` for every non-zero
count and to `text` for zero, so no `interactive_list` message survives the
wrapper. -/
theorem c2_count_to_variant_mapping (query tid : List Char)
    (products : List FProduct) (selected : Product)
    (searchBase searchName : List Product) (hq : pyStrip query ≠ []) :
    (products = [] → (searchActionResult query products).get wtKey = none ∧
      jvalGetEq (search_products_with_handoff_func query products tid) wtKey
        "text".data = true) ∧
    (∀ p, products = [p] →
      jvalGetEq (searchActionResult query products) wtKey
        "buttonTemplate".data = true) ∧
    (∀ p q2 rest, products = p :: q2 :: rest →
      jvalGetEq (searchActionResult query products) wtKey ilVal = true) ∧
    (products ≠ [] →
      jvalGetEq (search_products_with_handoff_func query products tid) wtKey
        "buttonTemplate".data = true) ∧
    (searchItems products).length ≤ 10 ∧
    (selectedVariants selected searchBase searchName).length ≤ 3 := by
  refine ⟨?_, ?_, ?_, ?_, searchItems_le_ten products,
    selectedVariants_le_three selected searchBase searchName⟩
  · intro he
    subst he
    constructor
    · rw [searchActionResult_found _ _ hq]
      exact searchActionFound_nil_no_type query
    · rw [search_products_with_handoff_func, searchActionResult_found _ _ hq]
      exact handoffWith_empty query tid
  · intro p he
    subst he
    rw [searchActionResult_found _ _ hq]
    exact searchActionFound_single query p
  · intro p q2 rest he
    subst he
    rw [searchActionResult_found _ _ hq]
    exact searchActionFound_multi query p q2 rest
  · intro hne
    cases products with
    | nil => exact absurd rfl hne
    | cons p rest =>
      rw [search_products_with_handoff_func, searchActionResult_found _ _ hq]
      exact handoffWith_nonempty query tid p rest

def cexProd1 : FProduct :=
  ⟨"1".data, "Lynx 116".data, "A chair".data, "10".data, "img1".data,
   "url1".data, "chair".data, [], "lynx-116".data⟩

def cexProd2 : FProduct :=
  ⟨"2".data, "Lynx 120".data, "A table".data, "12".data, "img2".data,
   "url2".data, "table".data, [], "lynx-120".data⟩

/-- C2, counterexample: a two-product search through
`search_products_with_handoff_func` — the message handed back to the
dispatcher — is `buttonTemplate`, not the `interactive_list` the claim
requires for `len(products) >= 2`. -/
theorem c2_counterexample :
    jvalGetEq (search_products_with_handoff_func "chair".data [cexProd1, cexProd2]
      "zoko_upsell_product_01".data) wtKey ilVal = false ∧
    jvalGetEq (search_products_with_handoff_func "chair".data [cexProd1, cexProd2]
      "zoko_upsell_product_01".data) wtKey "buttonTemplate".data = true :=
  ⟨rfl, rfl⟩

/-- C2, witness: the amended mapping at concrete inputs. -/
theorem c2_witness :
    pyStrip "chair".data ≠ [] ∧
    ((([] : List FProduct) = [] →
      (searchActionResult "chair".data []).get wtKey = none ∧
      jvalGetEq (search_products_with_handoff_func "chair".data [] "t".data) wtKey
        "text".data = true) ∧
    (∀ p, ([] : List FProduct) = [p] →
      jvalGetEq (searchActionResult "chair".data []) wtKey
        "buttonTemplate".data = true) ∧
    (∀ p q2 rest, ([] : List FProduct) = p :: q2 :: rest →
      jvalGetEq (searchActionResult "chair".data []) wtKey ilVal = true) ∧
    (([] : List FProduct) ≠ [] →
      jvalGetEq (search_products_with_handoff_func "chair".data [] "t".data) wtKey
        "buttonTemplate".data = true) ∧
    (searchItems []).length ≤ 10 ∧
    (selectedVariants ⟨⟨[], [], [], [], []⟩, [], [], none, [], [], []⟩ [] []).length ≤ 3) :=
  ⟨by decide,
   c2_count_to_variant_mapping "chair".data "t".data []
     ⟨⟨[], [], [], [], []⟩, [], [], none, [], [], []⟩ [] [] (by decide)⟩

theorem clean_text_le (t : JVal) (maxlen : Nat) :
    (clean_text t maxlen).length ≤ maxlen := by
  rw [clean_text, List.length_take]
  exact min_le_left _ _

theorem zitemOf_shape (prod : ZProd) :
    ∃ t d p, zitemOf prod = .obj [("title".data, .str t),
      ("description".data, .str d), ("payload".data, .str p)] ∧
      t.length ≤ 24 ∧ d.length ≤ 72 := by
  refine ⟨_, _, _, rfl, ?_, ?_⟩
  · rw [List.length_take]
    exact min_le_left _ _
  · rw [List.length_take]
    exact min_le_left _ _

theorem asStrE_inv {v : JVal} {s2 : List Char} (h : asStrE v = .ok s2) :
    v = .str s2 := by
  cases v with
  | str s3 =>
    have := Except.ok.inj h
    rw [this]
  | null => exact Except.noConfusion h
  | bool b => exact Except.noConfusion h
  | num n => exact Except.noConfusion h
  | arr xs => exact Except.noConfusion h
  | obj kvs => exact Except.noConfusion h

theorem pySliceJ_str_bound {v t : JVal} {n : Nat} (h : pySliceJ v n = .ok t) :
    ∀ s2, t = .str s2 → s2.length ≤ n := by
  intro s2 hs
  cases v with
  | str s3 =>
    have ht := Except.ok.inj h
    rw [← ht] at hs
    have := JVal.str.inj hs
    rw [← this, List.length_take]
    exact min_le_left _ _
  | arr xs =>
    have ht := Except.ok.inj h
    rw [← ht] at hs
    exact JVal.noConfusion hs
  | null => exact Except.noConfusion h
  | bool b => exact Except.noConfusion h
  | num n2 => exact Except.noConfusion h
  | obj kvs => exact Except.noConfusion h

theorem deliveryTail_bounds (item descT out : JVal)
    (h : (do
        let payloadV ← pyGetD item "payload".data (JVal.str [])
        let titleV ← pyGetD item "title".data (JVal.str [])
        let titleT ← pySliceJ titleV 24
        pure (JVal.obj [("payload".data, JVal.str (pyStr payloadV)),
          ("title".data, titleT),
          ("description".data,
            if pyTruthy descT then descT
            else JVal.str "No description available".data)]) :
        Except PyErr JVal) = Except.ok out)
    (hd : ∀ s2, descT = .str s2 → s2.length ≤ 50) :
    ∃ p t d, out = .obj [("payload".data, .str p), ("title".data, t),
        ("description".data, d)] ∧
      (∀ s2, t = .str s2 → s2.length ≤ 24) ∧
      pyTruthy d = true ∧
      (∀ s2, d = .str s2 → s2.length ≤ 50 ∧ s2 ≠ []) := by
  obtain ⟨payloadV, hg2, h⟩ := bindE_eq_ok h
  obtain ⟨titleV, hg3, h⟩ := bindE_eq_ok h
  obtain ⟨titleT, hsl, h⟩ := bindE_eq_ok h
  have hout := (Except.ok.inj (show Except.ok _ = Except.ok out from h)).symm
  refine ⟨pyStr payloadV, titleT, _, hout, pySliceJ_str_bound hsl, ?_, ?_⟩
  · cases hdt : pyTruthy descT with
    | true => exact hdt
    | false =>
      show pyTruthy (JVal.str "No description available".data) = true
      decide
  · intro s2 hs
    cases hdt : pyTruthy descT with
    | true =>
      rw [if_pos hdt] at hs
      refine ⟨hd s2 hs, ?_⟩
      rw [hs] at hdt
      intro hnil
      rw [hnil] at hdt
      exact Bool.noConfusion hdt
    | false =>
      rw [if_neg (by rw [hdt]; exact Bool.false_ne_true)] at hs
      have h2 := JVal.str.inj hs
      rw [← h2]
      exact ⟨by decide, by decide⟩

theorem deliveryItemOf_bounds (item out : JVal) (h : deliveryItemOf item = .ok out) :
    ∃ p t d, out = .obj [("payload".data, .str p), ("title".data, t),
        ("description".data, d)] ∧
      (∀ s2, t = .str s2 → s2.length ≤ 24) ∧
      pyTruthy d = true ∧
      (∀ s2, d = .str s2 → s2.length ≤ 50 ∧ s2 ≠ []) := by
  unfold deliveryItemOf at h
  obtain ⟨descV, hg1, h⟩ := bindE_eq_ok h
  dsimp only [] at h
  cases htr : pyTruthy descV with
  | false =>
    rw [htr] at h
    refine deliveryTail_bounds item descV out h ?_
    intro s2 hs
    rw [hs] at htr
    have : s2.isEmpty = true := by
      cases hie : s2.isEmpty with
      | true => rfl
      | false =>
        rw [show pyTruthy (.str s2) = !s2.isEmpty from rfl, hie] at htr
        exact Bool.noConfusion htr
    rw [List.isEmpty_iff] at this
    rw [this]
    simp
  | true =>
    rw [htr] at h
    obtain ⟨l, hlen, h⟩ := bindE_eq_ok h
    split at h
    · rename_i h50
      obtain ⟨ds, hds, h⟩ := bindE_eq_ok h
      obtain ⟨y, hy, h⟩ := bindE_eq_ok h
      have hyv := Except.ok.inj (show Except.ok _ = Except.ok y from hy)
      rw [← hyv] at h
      refine deliveryTail_bounds item _ out h ?_
      intro s2 hs
      have h2 := JVal.str.inj hs
      rw [← h2, List.length_append, List.length_take]
      exact Nat.add_le_add_right (min_le_left _ _) _
    · rename_i h50
      refine deliveryTail_bounds item descV out h ?_
      intro s2 hs
      rw [hs] at hlen
      have hl := Except.ok.inj
        (show Except.ok ((s2.length : Int)) = Except.ok l from hlen)
      omega

theorem ilItemsOfSection_bounds (items r : List JVal)
    (h : ilItemsOfSection items = .ok r) :
    ∀ it ∈ r, ∃ pv tl dc, it = .obj [("id".data, .str pv),
      ("payload".data, .str pv), ("title".data, .str tl),
      ("description".data, .str dc)] ∧ tl.length ≤ 24 ∧ dc.length ≤ 72 := by
  induction items generalizing r with
  | nil =>
    have hr := Except.ok.inj (show Except.ok ([] : List JVal) = Except.ok r from h)
    rw [← hr]
    intro it hit
    cases hit
  | cons it2 rest ih =>
    rw [ilItemsOfSection] at h
    obtain ⟨payloadV, h1, h⟩ := bindE_eq_ok h
    obtain ⟨titleV, h2, h⟩ := bindE_eq_ok h
    obtain ⟨descV, h3, h⟩ := bindE_eq_ok h
    dsimp only [] at h
    obtain ⟨more, h4, h⟩ := bindE_eq_ok h
    have hr := Except.ok.inj (show Except.ok _ = Except.ok r from h)
    intro it hit
    rw [← hr] at hit
    cases List.mem_cons.mp hit with
    | inl he =>
      exact ⟨pyStr payloadV, clean_text titleV 24, clean_text descV 72, he,
        clean_text_le _ 24, clean_text_le _ 72⟩
    | inr hm => exact ih more h4 it hm

/-- C3 (amended): every interactive-list item built by the three builders
keeps `title` within 24 characters; `create_product_list_message` and the
normalizer keep `description` within 72 but may leave it empty; only the
nested delivery branch of `process_zoko_message` guarantees a non-empty
description (defaulting to `'No description available'`), and there the
bound is 50, not 72. -/
theorem c3_truncation_invariants (prod : ZProd) (item out : JVal)
    (items r : List JVal) (hdel : deliveryItemOf item = .ok out)
    (hil : ilItemsOfSection items = .ok r) :
    (∃ t d p, zitemOf prod = .obj [("title".data, .str t),
        ("description".data, .str d), ("payload".data, .str p)] ∧
      t.length ≤ 24 ∧ d.length ≤ 72) ∧
    (∃ p t d, out = .obj [("payload".data, .str p), ("title".data, t),
        ("description".data, d)] ∧
      (∀ s2, t = .str s2 → s2.length ≤ 24) ∧
      pyTruthy d = true ∧
      (∀ s2, d = .str s2 → s2.length ≤ 50 ∧ s2 ≠ [])) ∧
    (∀ it ∈ r, ∃ pv tl dc, it = .obj [("id".data, .str pv),
        ("payload".data, .str pv), ("title".data, .str tl),
        ("description".data, .str dc)] ∧ tl.length ≤ 24 ∧ dc.length ≤ 72) :=
  ⟨zitemOf_shape prod, deliveryItemOf_bounds item out hdel,
    ilItemsOfSection_bounds items r hil⟩

def cexZ : ZProd :=
  ⟨[], [], [], "N/A".data, [], "Product".data, "unknown".data⟩

/-- C3, counterexample: `create_product_list_message` tags its output
`interactive_list`, yet the item it builds for a product with no type,
category, vendor, price or description has an empty `description` — no
`'No description available'` default exists on this path. -/
theorem c3_counterexample :
    jvalGetEq (create_product_list_message [cexZ]) wtKey ilVal = true ∧
    (zitemOf cexZ).get "description".data = some (.str []) :=
  ⟨rfl, rfl⟩

/-- C3, witness: the amended bounds at concrete inputs. -/
theorem c3_witness :
    deliveryItemOf (.obj []) = .ok (.obj [("payload".data, .str []),
      ("title".data, .str []),
      ("description".data, .str "No description available".data)]) ∧
    ilItemsOfSection [] = .ok [] ∧
    ((∃ t d p, zitemOf cexZ = .obj [("title".data, .str t),
        ("description".data, .str d), ("payload".data, .str p)] ∧
      t.length ≤ 24 ∧ d.length ≤ 72) ∧
    (∃ p t d, (JVal.obj [("payload".data, .str []), ("title".data, .str []),
        ("description".data, .str "No description available".data)]) =
        .obj [("payload".data, .str p), ("title".data, t),
        ("description".data, d)] ∧
      (∀ s2, t = .str s2 → s2.length ≤ 24) ∧
      pyTruthy d = true ∧
      (∀ s2, d = .str s2 → s2.length ≤ 50 ∧ s2 ≠ [])) ∧
    (∀ it ∈ ([] : List JVal), ∃ pv tl dc, it = .obj [("id".data, .str pv),
        ("payload".data, .str pv), ("title".data, .str tl),
        ("description".data, .str dc)] ∧ tl.length ≤ 24 ∧ dc.length ≤ 72)) :=
  ⟨rfl, rfl, c3_truncation_invariants cexZ (.obj []) _ [] [] rfl rfl⟩

/-- Invert a boolean `if` that produced `.ok`. -/
theorem iteE_inv {α : Type} {c : Bool} {a b : Except PyErr α} {r : α}
    (h : (if c = true then a else b) = Except.ok r) :
    (c = true ∧ a = Except.ok r) ∨ (c = false ∧ b = Except.ok r) := by
  cases c
  · exact Or.inr ⟨rfl, h⟩
  · exact Or.inl ⟨rfl, h⟩

theorem flatItemsLoop_sound (its : List JVal) (seen : List (List Char))
    (out : List JVal) (h : flatItemsLoop its seen = .ok out) :
    (∀ it ∈ out, titleOf it ≠ [] ∧ payloadOf it ≠ [] ∧
      seen.contains (payloadOf it) = false) ∧
    (out.map payloadOf).Nodup := by
  induction its generalizing seen out with
  | nil =>
    have hr := Except.ok.inj (show Except.ok ([] : List JVal) = Except.ok out from h)
    rw [← hr]
    exact ⟨fun it hit => absurd hit (List.not_mem_nil it), List.nodup_nil⟩
  | cons item rest ih =>
    rw [flatItemsLoop] at h
    obtain ⟨pv, h1, h⟩ := bindE_eq_ok h
    obtain ⟨tv, h2, h⟩ := bindE_eq_ok h
    obtain ⟨dv, h3, h⟩ := bindE_eq_ok h
    dsimp only [] at h
    rcases iteE_inv h with ⟨hcond, h⟩ | ⟨hcond, h⟩
    · exact ih seen out h
    · obtain ⟨more, h4, h⟩ := bindE_eq_ok h
      have hr := Except.ok.inj (show Except.ok _ = Except.ok out from h)
      simp only [Bool.or_eq_false_iff] at hcond
      obtain ⟨⟨hp, ht⟩, hs⟩ := hcond
      have ihm := ih ((pyStr pv).take 200 :: seen) more h4
      have hpo : payloadOf (JVal.obj [("title".data, .str ((pyStr tv).take 24)),
          ("description".data, .str ((pyStr dv).take 72)),
          ("payload".data, .str ((pyStr pv).take 200))]) = (pyStr pv).take 200 := rfl
      have hto : titleOf (JVal.obj [("title".data, .str ((pyStr tv).take 24)),
          ("description".data, .str ((pyStr dv).take 72)),
          ("payload".data, .str ((pyStr pv).take 200))]) = (pyStr tv).take 24 := rfl
      rw [← hr]
      constructor
      · intro it hit
        cases List.mem_cons.mp hit with
        | inl he =>
          rw [he, hpo, hto]
          refine ⟨?_, ?_, hs⟩
          · intro hn
            rw [hn] at ht
            exact Bool.noConfusion ht
          · intro hn
            rw [hn] at hp
            exact Bool.noConfusion hp
        | inr hm =>
          obtain ⟨hta, hpa, hca⟩ := ihm.1 it hm
          refine ⟨hta, hpa, ?_⟩
          rw [List.contains_cons] at hca
          simp only [Bool.or_eq_false_iff] at hca
          exact hca.2
      · rw [List.map_cons, hpo, List.nodup_cons]
        constructor
        · intro hmem
          obtain ⟨it, hit, hpe⟩ := List.mem_map.mp hmem
          have hca := (ihm.1 it hit).2.2
          rw [hpe, List.contains_cons] at hca
          simp at hca
        · exact ihm.2

/-- C4 (amended): in the flat interactive-list delivery branch every sent
item has a non-empty title and payload, payloads are pairwise distinct with
the first occurrence kept, and when every item drops the branch degrades to
the no-products text; the nested branch (lines 517-535) only drops
empty-title/payload items and performs no payload deduplication. -/
theorem c4_payload_uniqueness (response : JVal) (out : Sent)
    (h : flatBranchSend response = .ok out) :
    (∀ lt bd items st ft, out = Sent.interactiveList lt bd items st ft →
      items ≠ [] ∧ (items.map payloadOf).Nodup ∧
      ∀ it ∈ items, titleOf it ≠ [] ∧ payloadOf it ≠ []) ∧
    ((∀ lt bd items st ft, out ≠ Sent.interactiveList lt bd items st ft) →
      out = Sent.text "Sorry, no products found.".data) ∧
    flatItemsLoop [.obj [("payload".data, .str "p1".data),
        ("title".data, .str "A".data)],
      .obj [("payload".data, .str "p1".data), ("title".data, .str "B".data)]] [] =
      .ok [.obj [("title".data, .str "A".data), ("description".data, .str []),
        ("payload".data, .str "p1".data)]] := by
  unfold flatBranchSend at h
  obtain ⟨itemsV, h1, h⟩ := bindE_eq_ok h
  obtain ⟨its, h2, h⟩ := bindE_eq_ok h
  obtain ⟨items0, h3, h⟩ := bindE_eq_ok h
  split at h
  · rename_i hemp
    have hout := (Except.ok.inj (show Except.ok _ = Except.ok out from h)).symm
    refine ⟨?_, fun _ => hout, rfl⟩
    intro lt bd items st ft he
    rw [hout] at he
    exact Sent.noConfusion he
  · rename_i hemp
    dsimp only [] at h
    have hout := (Except.ok.inj (show Except.ok _ = Except.ok out from h)).symm
    constructor
    · intro lt bd items st ft he
      rw [hout] at he
      obtain ⟨helt, hebd, heit, hest, heft⟩ := Sent.interactiveList.inj he
      obtain ⟨hfields, hnodup⟩ := flatItemsLoop_sound its [] items0 h3
      rw [← heit]
      refine ⟨?_, hnodup, fun it hit => ⟨(hfields it hit).1, (hfields it hit).2.1⟩⟩
      intro hn
      rw [hn] at hemp
      exact absurd rfl hemp
    · refine ⟨?_, rfl⟩
      intro hno
      exfalso
      exact hno _ _ _ _ _ hout

def cexNestedResp : JVal :=
  .obj [(wtKey, .str ilVal),
    ("interactiveList".data, .obj [("list".data, .obj [("sections".data,
      .arr [.obj [("items".data, .arr [
        .obj [("payload".data, .str "p1".data), ("title".data, .str "A".data),
          ("description".data, .str "d".data)],
        .obj [("payload".data, .str "p1".data), ("title".data, .str "B".data),
          ("description".data, .str "d".data)]])]])])])]

/-- C4, counterexample: the nested interactive-list delivery branch sends
two items with the same payload `p1` — duplicate payloads are not dropped
at this delivery path, so payload uniqueness does not hold for every
delivered list message. -/
theorem c4_counterexample :
    nestedBranchSend cexNestedResp = .ok (some (Sent.interactiveListBasic
      (.str "LEVA Houses".data) (.str "Choose an option:".data)
      [.obj [("payload".data, .str "p1".data), ("title".data, .str "A".data),
        ("description".data, .str "d".data)],
       .obj [("payload".data, .str "p1".data), ("title".data, .str "B".data),
        ("description".data, .str "d".data)]])) ∧
    ¬ ([JVal.obj [("payload".data, .str "p1".data), ("title".data, .str "A".data),
        ("description".data, .str "d".data)],
       JVal.obj [("payload".data, .str "p1".data), ("title".data, .str "B".data),
        ("description".data, .str "d".data)]].map payloadOf).Nodup :=
  ⟨rfl, by decide⟩

/-- C4, witness: the flat-branch guarantees at a concrete response. -/
theorem c4_witness :
    flatBranchSend (.obj [("header".data, .str "H".data),
      ("body".data, .str "B".data),
      ("items".data, .arr [.obj [("payload".data, .str "p".data),
        ("title".data, .str "T".data)]])]) =
      .ok (Sent.interactiveList "H".data "B".data
        [.obj [("title".data, .str "T".data), ("description".data, .str []),
          ("payload".data, .str "p".data)]] "H".data "Powered by Zoko".data) ∧
    ((∀ lt bd items st ft,
      Sent.interactiveList "H".data "B".data
        [.obj [("title".data, .str "T".data), ("description".data, .str []),
          ("payload".data, .str "p".data)]] "H".data "Powered by Zoko".data =
        Sent.interactiveList lt bd items st ft →
      items ≠ [] ∧ (items.map payloadOf).Nodup ∧
      ∀ it ∈ items, titleOf it ≠ [] ∧ payloadOf it ≠ []) ∧
    ((∀ lt bd items st ft,
      Sent.interactiveList "H".data "B".data
        [.obj [("title".data, .str "T".data), ("description".data, .str []),
          ("payload".data, .str "p".data)]] "H".data "Powered by Zoko".data ≠
        Sent.interactiveList lt bd items st ft) →
      Sent.interactiveList "H".data "B".data
        [.obj [("title".data, .str "T".data), ("description".data, .str []),
          ("payload".data, .str "p".data)]] "H".data "Powered by Zoko".data =
        Sent.text "Sorry, no products found.".data) ∧
    flatItemsLoop [.obj [("payload".data, .str "p1".data),
        ("title".data, .str "A".data)],
      .obj [("payload".data, .str "p1".data), ("title".data, .str "B".data)]] [] =
      .ok [.obj [("title".data, .str "A".data), ("description".data, .str []),
        ("payload".data, .str "p1".data)]]) :=
  ⟨rfl, c4_payload_uniqueness
    (.obj [("header".data, .str "H".data), ("body".data, .str "B".data),
      ("items".data, .arr [.obj [("payload".data, .str "p".data),
        ("title".data, .str "T".data)]])])
    (Sent.interactiveList "H".data "B".data
      [.obj [("title".data, .str "T".data), ("description".data, .str []),
        ("payload".data, .str "p".data)]] "H".data "Powered by Zoko".data)
    rfl⟩

theorem ite_isEmpty_ne (x y : List Char) (hy : y ≠ []) :
    (if x.isEmpty then y else x) ≠ [] := by
  by_cases h : x.isEmpty
  · rw [if_pos h]
    exact hy
  · rw [if_neg h]
    intro hn
    rw [hn] at h
    exact h rfl

theorem ne_nil_isEmpty_false {l : List Char} (h : l ≠ []) : l.isEmpty = false := by
  cases he : l.isEmpty with
  | false => rfl
  | true =>
    rw [List.isEmpty_iff] at he
    exact absurd he h

theorem localize_product_complete (row : Row) (lang : List Char)
    (fp : List Char → Option (List Char)) (tr : List Char → List Char) :
    (localize_product row lang fp tr).image_url ≠ [] ∧
    (localize_product row lang fp tr).description ≠ [] ∧
    (localize_product row lang fp tr).url ≠ [] ∧
    is_complete_product (localize_product row lang fp tr) = true := by
  have himg : (localize_product row lang fp tr).image_url ≠ [] :=
    ite_isEmpty_ne row.ImageSrc unsplashImg (by decide)
  have hdesc : (localize_product row lang fp tr).description ≠ [] :=
    ite_isEmpty_ne
      (if !row.BodyHTML.isEmpty && lang != "en".data then tr row.BodyHTML
       else row.BodyHTML)
      ("Order ".data ++ (if row.Title.isEmpty then "Product".data else row.Title))
      (List.cons_ne_nil _ _)
  have hurl : (localize_product row lang fp tr).url ≠ [] := by
    show (if row.Handle.isEmpty then "https://www.theleva.com/".data
      else "https://www.theleva.com/products/".data ++ row.Handle) ≠ []
    by_cases h : row.Handle.isEmpty
    · rw [if_pos h]
      decide
    · rw [if_neg h]
      exact List.cons_ne_nil _ _
  refine ⟨himg, hdesc, hurl, ?_⟩
  rw [is_complete_product, ne_nil_isEmpty_false himg, ne_nil_isEmpty_false hdesc,
    ne_nil_isEmpty_false hurl]
  simp

theorem searchSemLoop_mem (rows : List Row) (loc : Row → Product) (m : Nat) :
    ∀ (idxs : List Nat) (acc : List Product) (p : Product),
    p ∈ searchSemLoop rows loc m idxs acc → p ∈ acc ∨ ∃ r, p = loc r := by
  intro idxs
  induction idxs with
  | nil =>
    intro acc p hp
    exact Or.inl hp
  | cons i rest ih =>
    intro acc p hp
    rw [searchSemLoop] at hp
    have hsplit : p ∈ (if is_complete_product (loc (rows.getD i ⟨[], [], [], [], []⟩))
        then acc ++ [loc (rows.getD i ⟨[], [], [], [], []⟩)] else acc) ∨
        ∃ r, p = loc r := by
      by_cases hif : m ≤ (if is_complete_product (loc (rows.getD i ⟨[], [], [], [], []⟩))
          then acc ++ [loc (rows.getD i ⟨[], [], [], [], []⟩)] else acc).length
      · rw [if_pos hif] at hp
        exact Or.inl hp
      · rw [if_neg hif] at hp
        exact ih _ p hp
    cases hsplit with
    | inr h2 => exact Or.inr h2
    | inl h2 =>
      by_cases hc : is_complete_product (loc (rows.getD i ⟨[], [], [], [], []⟩)) = true
      · rw [if_pos hc] at h2
        cases List.mem_append.mp h2 with
        | inl ha => exact Or.inl ha
        | inr hb =>
          cases List.mem_cons.mp hb with
          | inl he => exact Or.inr ⟨_, he⟩
          | inr hn => cases hn
      · rw [if_neg hc] at h2
        exact Or.inl h2

theorem searchSemLoop_len (rows : List Row) (loc : Row → Product) (m : Nat) :
    ∀ (idxs : List Nat) (acc : List Product),
    acc.length ≤ (searchSemLoop rows loc m idxs acc).length := by
  intro idxs
  induction idxs with
  | nil => intro acc; exact le_rfl
  | cons i rest ih =>
    intro acc
    rw [searchSemLoop]
    have hsub : acc.length ≤ (if is_complete_product
        (loc (rows.getD i ⟨[], [], [], [], []⟩))
        then acc ++ [loc (rows.getD i ⟨[], [], [], [], []⟩)] else acc).length := by
      by_cases hc : is_complete_product (loc (rows.getD i ⟨[], [], [], [], []⟩)) = true
      · rw [if_pos hc, List.length_append]
        omega
      · rw [if_neg hc]
    by_cases hif : m ≤ (if is_complete_product (loc (rows.getD i ⟨[], [], [], [], []⟩))
        then acc ++ [loc (rows.getD i ⟨[], [], [], [], []⟩)] else acc).length
    · rw [if_pos hif]
      exact hsub
    · rw [if_neg hif]
      exact le_trans hsub (ih _)

theorem searchSemLoop_ne_nil (rows : List Row) (loc : Row → Product) (m : Nat)
    (hc : ∀ r, is_complete_product (loc r) = true) (i : Nat) (idxs : List Nat) :
    searchSemLoop rows loc m (i :: idxs) [] ≠ [] := by
  rw [searchSemLoop]
  rw [if_pos (hc _)]
  by_cases hif : m ≤ (([] : List Product) ++ [loc (rows.getD i ⟨[], [], [], [], []⟩)]).length
  · rw [if_pos hif]
    simp
  · rw [if_neg hif]
    have hl := searchSemLoop_len rows loc m idxs ([] ++ [loc (rows.getD i ⟨[], [], [], [], []⟩)])
    intro hn
    rw [hn] at hl
    simp at hl

theorem search_mem_localized (rows : List Row) (scores : List Int) (lang : List Char)
    (fp : List Char → Option (List Char)) (tr : List Char → List Char)
    (query : List Char) (maxr : Nat) (p : Product)
    (hp : p ∈ ProductLoader.search rows scores lang fp tr query maxr) :
    ∃ r, p = localize_product r lang fp tr := by
  unfold ProductLoader.search at hp
  by_cases hr : rows.isEmpty
  · rw [if_pos hr] at hp
    cases hp
  · rw [if_neg hr] at hp
    dsimp only [] at hp
    by_cases he : (searchSemLoop rows (fun r => localize_product r lang fp tr) maxr
        ((argsortDesc scores).take (maxr * 2)) []).isEmpty
    · rw [if_pos he] at hp
      have h1 := List.mem_of_mem_take hp
      have h2 := (List.mem_filter.mp h1).1
      obtain ⟨r, hr2, heq⟩ := List.mem_map.mp h2
      exact ⟨r, heq.symm⟩
    · rw [if_neg he] at hp
      cases searchSemLoop_mem rows _ maxr _ [] p hp with
      | inl ha => cases ha
      | inr hb => exact hb

/-- C5: every product returned by `ProductLoader.search` passes the
completeness filter — non-empty image reference, description and
URL/identifier — because both the semantic path and the fallback apply
`is_complete_product` to localized products, and localization always
populates `image_url`, `description` and `url` with non-empty fallbacks. -/
theorem c5_completeness_filter (rows : List Row) (scores : List Int)
    (lang : List Char) (fp : List Char → Option (List Char))
    (tr : List Char → List Char) (query : List Char) (maxr : Nat) (p : Product)
    (hp : p ∈ ProductLoader.search rows scores lang fp tr query maxr) :
    is_complete_product p = true ∧ p.image_url ≠ [] ∧
    p.description ≠ [] ∧ p.url ≠ [] := by
  obtain ⟨r, hpe⟩ := search_mem_localized rows scores lang fp tr query maxr p hp
  rw [hpe]
  obtain ⟨h1, h2, h3, h4⟩ := localize_product_complete r lang fp tr
  exact ⟨h4, h1, h2, h3⟩

def cexRow : Row := ⟨"Lynx 116".data, [], [], [], []⟩

/-- C5, witness: the completeness guarantees at a concrete catalog. -/
theorem c5_witness :
    (localize_product cexRow "en".data (fun _ => none) id) ∈
      ProductLoader.search [cexRow] [0] "en".data (fun _ => none) id "q".data 1 ∧
    (is_complete_product (localize_product cexRow "en".data (fun _ => none) id) = true ∧
     (localize_product cexRow "en".data (fun _ => none) id).image_url ≠ [] ∧
     (localize_product cexRow "en".data (fun _ => none) id).description ≠ [] ∧
     (localize_product cexRow "en".data (fun _ => none) id).url ≠ []) := by
  have hmem : (localize_product cexRow "en".data (fun _ => none) id) ∈
      ProductLoader.search [cexRow] [0] "en".data (fun _ => none) id "q".data 1 := by
    rw [show ProductLoader.search [cexRow] [0] "en".data (fun _ => none) id "q".data 1 =
      [localize_product cexRow "en".data (fun _ => none) id] from rfl]
    exact List.mem_singleton_self _
  exact ⟨hmem, c5_completeness_filter [cexRow] [0] "en".data (fun _ => none) id
    "q".data 1 _ hmem⟩

/-- C6 (amended): the `threshold = 0.3` of line 96 is dead — scores order
candidates but never gate them, and localization makes every candidate
complete, so for any non-empty catalog and `max_results ≥ 1` the semantic
pass returns at least one product no matter how low every score is; the
fallback partial-title match can only run when the semantic pass collected
nothing, which requires an empty candidate walk. -/
theorem c6_low_score_behavior (rows : List Row) (scores : List Int)
    (lang : List Char) (fp : List Char → Option (List Char))
    (tr : List Char → List Char) (query : List Char) (maxr : Nat)
    (hrows : rows ≠ []) (hlen : scores.length = rows.length) (hmax : 1 ≤ maxr) :
    ProductLoader.search rows scores lang fp tr query maxr ≠ [] := by
  have hre : rows.isEmpty = false := by
    cases hie : rows.isEmpty with
    | false => rfl
    | true =>
      rw [List.isEmpty_iff] at hie
      exact absurd hie hrows
  unfold ProductLoader.search
  rw [if_neg (by rw [hre]; exact Bool.false_ne_true)]
  dsimp only []
  have hlen2 : (argsortDesc scores).length = rows.length := by
    rw [argsortDesc, List.length_insertionSort, List.length_range, hlen]
  have hne : argsortDesc scores ≠ [] := by
    intro hn
    rw [hn] at hlen2
    cases rows with
    | nil => exact hrows rfl
    | cons a l => exact List.noConfusion (List.length_eq_zero.mp hlen2.symm)
  obtain ⟨i, idxs, hcons⟩ := List.exists_cons_of_ne_nil hne
  have hcomp : ∀ r, is_complete_product (localize_product r lang fp tr) = true :=
    fun r => (localize_product_complete r lang fp tr).2.2.2
  have hloop : searchSemLoop rows (fun r => localize_product r lang fp tr) maxr
      ((argsortDesc scores).take (maxr * 2)) [] ≠ [] := by
    rw [hcons]
    cases hm2 : maxr * 2 with
    | zero => omega
    | succ k =>
      rw [List.take_succ_cons]
      exact searchSemLoop_ne_nil rows _ maxr hcomp i (idxs.take k)
  have hle : (searchSemLoop rows (fun r => localize_product r lang fp tr) maxr
      ((argsortDesc scores).take (maxr * 2)) []).isEmpty = false := by
    cases hie : (searchSemLoop rows (fun r => localize_product r lang fp tr) maxr
        ((argsortDesc scores).take (maxr * 2)) []).isEmpty with
    | false => rfl
    | true =>
      rw [List.isEmpty_iff] at hie
      exact absurd hie hloop
  rw [if_neg (by rw [hle]; exact Bool.false_ne_true)]
  exact hloop

/-- C6, counterexample: a query with no partial title match and an
arbitrarily low semantic score for every catalog entry still returns a
product — scores never gate the semantic pass, so `search` does not return
the empty list the claim requires. -/
theorem c6_counterexample :
    ProductLoader.search [cexRow] [-1000] "en".data (fun _ => none) id
      "zzz-no-such-product".data 3 ≠ [] ∧
    [cexRow].filter (matchPartialTitle (pySplitWs (pyLower
      (pyStrip "zzz-no-such-product".data)))) = [] := by
  constructor
  · rw [show ProductLoader.search [cexRow] [-1000] "en".data (fun _ => none) id
      "zzz-no-such-product".data 3 =
      [localize_product cexRow "en".data (fun _ => none) id] from rfl]
    exact List.cons_ne_nil _ _
  · rfl

/-- C6, witness: the amended non-emptiness at a concrete catalog. -/
theorem c6_witness :
    ([cexRow] : List Row) ≠ [] ∧ ([(0 : Int)]).length = ([cexRow] : List Row).length ∧
    1 ≤ 1 ∧
    ProductLoader.search [cexRow] [0] "en".data (fun _ => none) id "q".data 1 ≠ [] :=
  ⟨List.cons_ne_nil _ _, rfl, le_rfl,
   c6_low_score_behavior [cexRow] [0] "en".data (fun _ => none) id "q".data 1
     (List.cons_ne_nil _ _) rfl le_rfl⟩

/-- C7: a message id recorded at time `t` is reported as a duplicate by
every check at or before `t + TTL`; an expired front entry is evicted
before the membership check; and after a non-duplicate insertion the store
is trimmed to `max_size` from the front.  `timesMono` holds for every state
built by the class itself under a monotone clock. -/
theorem c7_dedup_ttl (d : MessageDeduplicator) (X : List Char) (t current : Int)
    (hmono : timesMono d.processed_ids) :
    ((X, t) ∈ d.processed_ids → current - t ≤ d.ttl →
      (is_duplicate d current X).1 = true) ∧
    (∀ Y tY rest, d.processed_ids = (Y, tY) :: rest → d.ttl < current - tY →
      evictExpired current d.ttl d.processed_ids = evictExpired current d.ttl rest) ∧
    ((is_duplicate d current X).1 = false →
      ((is_duplicate d current X).2).processed_ids.length ≤ d.max_size) := by
  refine ⟨?_, ?_, ?_⟩
  · intro hmem hfresh
    have hkeep := evictExpired_keeps current d.ttl t X d.processed_ids hmono hmem hfresh
    have hlk := lookup_isSome_of_mem X t _ hkeep
    rw [is_duplicate, if_pos hlk]
  · intro Y tY rest heq hexp
    rw [heq, evictExpired, if_pos hexp]
  · intro hfalse
    rw [is_duplicate] at hfalse ⊢
    by_cases hlk : ((evictExpired current d.ttl d.processed_ids).lookup X).isSome = true
    · rw [if_pos hlk] at hfalse
      exact Bool.noConfusion hfalse
    · rw [if_neg hlk]
      exact trimFront_le _ _

/-- C7, witness: the guarantees at a concrete single-entry store. -/
theorem c7_witness :
    timesMono [("m1".data, (100 : Int))] ∧
    ((("m1".data, (100 : Int)) ∈ [("m1".data, (100 : Int))] → (200 : Int) - 100 ≤ 3600 →
      (is_duplicate ⟨[("m1".data, 100)], 1000, 3600⟩ 200 "m1".data).1 = true) ∧
    (∀ Y tY rest, [("m1".data, (100 : Int))] = (Y, tY) :: rest → (3600 : Int) < 200 - tY →
      evictExpired 200 3600 [("m1".data, (100 : Int))] = evictExpired 200 3600 rest) ∧
    ((is_duplicate ⟨[("m1".data, 100)], 1000, 3600⟩ 200 "m1".data).1 = false →
      ((is_duplicate ⟨[("m1".data, 100)], 1000, 3600⟩ 200 "m1".data).2).processed_ids.length ≤ 1000)) :=
  ⟨List.chain'_singleton _,
   c7_dedup_ttl ⟨[("m1".data, 100)], 1000, 3600⟩ "m1".data 100 200
     (List.chain'_singleton _)⟩

/-- C8: the tool dispatcher never raises — a tool code outside the static
map yields the fixed unknown-tool text message, an exception from the
underlying callable yields the fixed error text naming the tool, and a
successful call passes its parsed result through. -/
theorem c8_dispatcher_degradation (tool_code : List Char)
    (callResult : Except PyErr JVal) :
    (toolFuncMapHas tool_code = false →
      dispatchToolPlan tool_code callResult = .obj [(wtKey, .str "text".data),
        ("message".data,
         .str "Sorry, I couldn't process your request (unknown tool).".data)]) ∧
    (∀ e, callResult = .error e → toolFuncMapHas tool_code = true →
      dispatchToolPlan tool_code callResult = .obj [(wtKey, .str "text".data),
        ("message".data, .str ("Sorry, there was an error running the tool: ".data ++
          tool_code ++ ".".data))]) ∧
    (∀ v, callResult = .ok v → toolFuncMapHas tool_code = true →
      dispatchToolPlan tool_code callResult = v) := by
  refine ⟨?_, ?_, ?_⟩
  · intro hf
    rw [dispatchToolPlan.eq_def, if_neg (by rw [hf]; exact Bool.false_ne_true)]
  · intro e he ht
    rw [dispatchToolPlan.eq_def, if_pos ht, he]
  · intro v hv ht
    rw [dispatchToolPlan.eq_def, if_pos ht, hv]

/-- C9 (amended): the normalizers return without raising on every non-dict
value and on every `interactive_list`-tagged dict whose nested fields have
the expected shapes; outside that the code raises — `AttributeError` when
`interactiveList.body` is not a dict, and an unbound-local `NameError` for
any dict not tagged `interactive_list`, via the mis-indented fallback
return of line 300. -/
theorem c9_normalizer_no_raise (v : JVal) (h : wellShapedIL v = true) :
    (∃ w, normalize_interactive_list v = .ok w) ∧
    (∃ w, normalize_button_template v = .ok w) :=
  ⟨normalize_interactive_list_ok v h, normalize_button_template_total v⟩

/-- C9, counterexample: a string-valued `interactiveList.body` raises
`AttributeError`, and a dict without the `interactive_list` tag hits the
unbound local `items` at line 300 (`NameError`). -/
theorem c9_counterexample :
    normalize_interactive_list (.obj [(wtKey, .str ilVal),
      ("interactiveList".data, .obj [("list".data, .obj []),
        ("body".data, .str "x".data)])]) = .error .attrErr ∧
    normalize_interactive_list (.obj [(wtKey, .str "text".data)]) =
      .error .nameErr :=
  ⟨rfl, rfl⟩

/-- C9, witness: a well-shaped tagged dict normalizes without error. -/
theorem c9_witness :
    wellShapedIL (.obj [(wtKey, .str ilVal)]) = true ∧
    ((∃ w, normalize_interactive_list (.obj [(wtKey, .str ilVal)]) = .ok w) ∧
     (∃ w, normalize_button_template (.obj [(wtKey, .str ilVal)]) = .ok w)) :=
  ⟨rfl, c9_normalizer_no_raise (.obj [(wtKey, .str ilVal)]) rfl⟩

/-- C10: the unwrap loop of `fully_parse_json` terminates on every input —
any iteration budget of at least `jmeasure` (the string length plus one;
one for non-strings) produces a result, because each successful parse that
yields another string strictly shrinks it. -/
theorem c10_parse_loop_termination (v : JVal) (n : Nat) (h : jmeasure v ≤ n) :
    (fullyParseFuel n v).isSome = true := by
  cases v with
  | str s =>
    have hlt : s.length < n := by
      rw [show jmeasure (.str s) = s.length + 1 from rfl] at h
      omega
    obtain ⟨heq, hsome⟩ := fpf_aux n n s hlt le_rfl
    rw [heq]
    exact hsome
  | null => cases n <;> rfl
  | bool b => cases n <;> rfl
  | num m => cases n <;> rfl
  | arr xs => cases n <;> rfl
  | obj kvs => cases n <;> rfl

/-- C10, witness: the loop bound at a concrete fenced string. -/
theorem c10_witness :
    jmeasure (.str "\x7b\x7d".data) ≤ 3 ∧
    (fullyParseFuel 3 (.str "\x7b\x7d".data)).isSome = true :=
  ⟨by decide, c10_parse_loop_termination (.str "\x7b\x7d".data) 3 (by decide)⟩

/-- C1, counterexample: `fenceMsg` is a canonical message (a dict tagged
with `whatsapp_type`), yet serializing it and running `fully_parse_json`
yields the fenced empty object from inside its `message` text, not the
original message. -/
theorem c1_counterexample :
    fenceMsg.get wtKey = some (.str "text".data) ∧
    fully_parse_json (.str (serialize fenceMsg)) ≠ fenceMsg := by
  refine ⟨rfl, ?_⟩
  intro h
  rw [show fully_parse_json (.str (serialize fenceMsg)) = .obj [] from rfl] at h
  have h2 := JVal.obj.inj (show JVal.obj [] =
    JVal.obj [("whatsapp_type".data, .str "text".data),
      ("message".data,
       .str "\x60\x60\x60json \x7b\x7d \x60\x60\x60".data)] from h)
  exact List.noConfusion h2

/-- C1, witness: the amended round trip at a concrete canonical message. -/
theorem c1_witness :
    noNum (.obj [("whatsapp_type".data, JVal.str "text".data)]) = true ∧
    findFence (serialize (.obj [("whatsapp_type".data, JVal.str "text".data)])) = none ∧
    (fully_parse_json (.str (serialize (.obj [("whatsapp_type".data,
        JVal.str "text".data)]))) =
      .obj [("whatsapp_type".data, JVal.str "text".data)] ∧
    fully_parse_json (.obj [("whatsapp_type".data, JVal.str "text".data)]) =
      .obj [("whatsapp_type".data, JVal.str "text".data)]) :=
  ⟨rfl, rfl, fully_parse_json_obj_roundtrip
    [("whatsapp_type".data, JVal.str "text".data)] rfl rfl⟩

end Automation
